import Mathlib

/-!
# ACPI table discovery (`kernel/acpi.cpp`)

A shallow embedding of the firmware-table discovery code of the kernel:
the 8-bit checksum `SumBytes`, the validators `RSDP::IsValid` and
`DescriptionHeader::IsValid`, the directory accessors `XSDT::Count` and
`XSDT::operator[]`, and the orchestrator `acpi::Initialize`.

Physical memory is a total map from addresses to bytes.  Pointers are natural
numbers, the null pointer is `0`.  Unsigned machine arithmetic is written with
an explicit modulus.  Calls of `Log` are recorded, in order, with the
arguments they were given; `exit(1)` and the signed overflow of the loop
counter are outcomes of `Initialize`.
-/

namespace acpi

/-! ## Memory -/

/-- A byte (`uint8_t`, or a `char` read as `unsigned char`). -/
abbrev Byte := Fin 256

/-- Physical memory: one byte at every address. -/
abbrev Mem := Nat → Byte

/-- The value of the byte at address `a`. -/
def readU8 (m : Mem) (a : Nat) : Nat := (m a).val

/-- The `n` bytes from address `a` on, read as one little-endian unsigned
integer (the byte order of the x86-64 target). -/
def readLE (m : Mem) : Nat → Nat → Nat
  | _, 0 => 0
  | a, n + 1 => readU8 m a + 256 * readLE m (a + 1) n

/-- A `uint32_t` field at address `a`. -/
def readU32 (m : Mem) (a : Nat) : Nat := readLE m a 4

/-- A `uint64_t` field at address `a`. -/
def readU64 (m : Mem) (a : Nat) : Nat := readLE m a 8

/-- The `n` bytes from address `a` on, as a list. -/
def bytesAt (m : Mem) (a n : Nat) : List Byte := (List.range n).map (fun i => m (a + i))

/-- Memory that holds the given byte lists at the given base addresses (the
first region that covers an address wins) and zero everywhere else. -/
def Mem.ofRegions : List (Nat × List Byte) → Mem
  | [] => fun _ => 0
  | (base, bytes) :: rest => fun a =>
      if base ≤ a ∧ a < base + bytes.length then bytes.getD (a - base) 0
      else Mem.ofRegions rest a

/-- Memory `m` with the byte at address `a` replaced by `b`. -/
def Mem.set (m : Mem) (a : Nat) (b : Byte) : Mem := fun x => if x = a then b else m x

/-! ## Layout

The structs are declared packed in `acpi.hpp`; their sizes and field offsets
are those of the binary layout contracts of the specification. -/

/-- Modelled from the spec: `sizeof(DescriptionHeader)`, the struct is declared
in the absent `acpi.hpp`; "TableHeader: ... Total 36 bytes". -/
def sizeofDescriptionHeader : Nat := 36

/-- Modelled from the spec: offset of `DescriptionHeader::length` (absent
`acpi.hpp`); "offset 0 signature[4], 4 length[4]". -/
def DescriptionHeader.lengthOffset : Nat := 4

/-- Modelled from the spec: offset of `RSDP::revision` (absent `acpi.hpp`);
"9 oem_id[6], 15 revision[1]". -/
def RSDP.revisionOffset : Nat := 15

/-- Modelled from the spec: offset of `RSDP::xsdt_address` (absent `acpi.hpp`);
"20 length[4], 24 xsdt_address[8]". -/
def RSDP.xsdtAddressOffset : Nat := 24

/-- The value of `sizeof(uint64_t)`. -/
def sizeofU64 : Nat := 8

/-- The field `header.length` of the table at address `self`. -/
def DescriptionHeader.length (m : Mem) (self : Nat) : Nat :=
  readU32 m (self + DescriptionHeader.lengthOffset)

/-- The field `revision` of the root pointer at address `self`. -/
def RSDP.revision (m : Mem) (self : Nat) : Nat := readU8 m (self + RSDP.revisionOffset)

/-- The field `xsdt_address` of the root pointer at address `self`. -/
def RSDP.xsdt_address (m : Mem) (self : Nat) : Nat := readU64 m (self + RSDP.xsdtAddressOffset)

/-! ## String literals and `strncmp` -/

/-- The characters of a string literal as a C string: the listed bytes, then
the terminating NUL. -/
def cstr (s : List Byte) : Nat → Nat := fun i => (s.getD i 0).val

/-- The ASCII bytes of `"RSD PTR "`. -/
def sigRSDPTR : List Byte := [82, 83, 68, 32, 80, 84, 82, 32]

/-- The ASCII bytes of `"XSDT"`. -/
def sigXSDT : List Byte := [88, 83, 68, 84]

/-- The ASCII bytes of `"FACP"`. -/
def sigFACP : List Byte := [70, 65, 67, 80]

/-- The ASCII bytes of `"APIC"`. -/
def sigAPIC : List Byte := [65, 80, 73, 67]

/-- The library function `strncmp(s1, s2, n)` on characters read as
`unsigned char`: scans from index `i`, at most `n` characters, stops at the
first difference (returning it) or at a NUL common to both (returning 0). -/
def strncmp (s1 s2 : Nat → Nat) : Nat → Nat → Int
  | 0, _ => 0
  | n + 1, i =>
      if s1 i ≠ s2 i then (s1 i : Int) - (s2 i : Int)
      else if s1 i = 0 then 0
      else strncmp s1 s2 n (i + 1)

/-! ## Checksum -/

/-- The loop of `SumBytes<uint8_t>`: `remaining` iterations are left, the
counter is `i`, the 8-bit accumulator is `sum`. -/
def SumBytesU8.loop (m : Mem) (data : Nat) : Nat → Nat → Nat → Nat
  | 0, _, sum => sum
  | remaining + 1, i, sum =>
      SumBytesU8.loop m data remaining (i + 1) ((sum + readU8 m (data + i)) % 256)

/-- The specialisation `SumBytes<uint8_t>(data, bytes)`. -/
def SumBytesU8 (m : Mem) (data bytes : Nat) : Nat := SumBytesU8.loop m data bytes 0 0

/-- The template `SumBytes<T>(data, bytes)`: the same address, read as bytes. -/
def SumBytes (m : Mem) (data bytes : Nat) : Nat := SumBytesU8 m data bytes

/-! ## Logging -/

/-- The log levels used by this file. -/
inductive LogLevel
  | kError
  | kDebug
  deriving DecidableEq, Repr

/-- An argument passed to `Log` after the format string. -/
inductive LogArg
  | chars (bytes : List Byte)
  | num (n : Nat)
  deriving DecidableEq, Repr

/-- One call of `Log`: level, format string, arguments. -/
structure LogEntry where
  level : LogLevel
  fmt : String
  args : List LogArg
  deriving DecidableEq, Repr

/-! ## Validators -/

/-- The method `RSDP::IsValid` on the root pointer at address `self`: the
result and the diagnostics logged. -/
def RSDP.IsValid (m : Mem) (self : Nat) : Bool × List LogEntry :=
  if strncmp (fun i => readU8 m (self + i)) (cstr sigRSDPTR) 8 0 ≠ 0 then
    (false, [⟨.kDebug, "invalid signature: %.8s\n", [.chars (bytesAt m self 8)]⟩])
  else if RSDP.revision m self ≠ 2 then
    (false, [⟨.kDebug, "invalid signature: %.8s\n", [.chars (bytesAt m self 8)]⟩])
  else if SumBytes m self 20 ≠ 0 then
    (false, [⟨.kDebug, "sum of 20 bytes must be 0: %d\n", [.num (SumBytes m self 20)]⟩])
  else if SumBytes m self 36 ≠ 0 then
    (false, [⟨.kDebug, "sum of 36 bytes must be 0: %d\n", [.num (SumBytes m self 36)]⟩])
  else (true, [])

/-- The method `DescriptionHeader::IsValid(expected_signature)` on the table at
address `self`: the result and the diagnostics logged. -/
def DescriptionHeader.IsValid (m : Mem) (self : Nat) (expected_signature : List Byte) :
    Bool × List LogEntry :=
  if strncmp (fun i => readU8 m (self + i)) (cstr expected_signature) 4 0 ≠ 0 then
    (false, [⟨.kDebug, "invalid signature: %.4s\n", []⟩])
  else if SumBytes m self (DescriptionHeader.length m self) ≠ 0 then
    (false, [⟨.kDebug, "sum of %u bytes must be 0: %d\n",
      [.num (DescriptionHeader.length m self),
       .num (SumBytes m self (DescriptionHeader.length m self))]⟩])
  else (true, [])

/-! ## Directory -/

/-- The local `entries` of `XSDT::operator[]`: the address `&this->header + 1`,
one header past the start of the directory at address `self`. -/
def XSDT.entries (self : Nat) : Nat := self + 1 * sizeofDescriptionHeader

/-- The method `XSDT::operator[](i)` on the directory at address `self`: the
address stored in `entries[i]`, at which the returned table lies. -/
def XSDT.get (m : Mem) (self : Nat) (i : Nat) : Nat :=
  readU64 m (XSDT.entries self + i * sizeofU64)

/-- The method `XSDT::Count()`: the 32-bit length is converted to `size_t`, the
subtraction is unsigned 64-bit. -/
def XSDT.Count (m : Mem) (self : Nat) : Nat :=
  ((DescriptionHeader.length m self + 2 ^ 64 - sizeofDescriptionHeader) % 2 ^ 64) / sizeofU64

/-! ## Orchestrator -/

/-- The process-wide state `Initialize` acts on: the global `fadt` (`0` is
`nullptr`) and the log. -/
structure State where
  fadt : Nat
  log : List LogEntry
  deriving DecidableEq, Repr

/-- How a call of `Initialize` ends: it returns to its caller, it calls
`exit(code)`, or it increments the `int` loop counter at `INT_MAX`, a signed
overflow, after which the program has no defined behaviour. -/
inductive Outcome
  | returned
  | exited (code : Nat)
  | intOverflow
  deriving DecidableEq, Repr

/-- How the scan loop of `Initialize` ends: by its condition or `break`, or by
incrementing the `int` counter past `INT_MAX`. -/
inductive LoopEnd
  | done
  | intOverflow
  deriving DecidableEq, Repr

/-- The largest value of an `int`, `INT_MAX`. -/
def INT_MAX : Nat := 2 ^ 31 - 1

/-- The scan loop of `Initialize`, `for (int i = 0; i < xsdt.Count(); ++i)`,
from counter value `i` on; `room` is `INT_MAX - i`, the number of increments
the `int` counter can still take.  Incrementing it at `INT_MAX` is a signed
overflow. -/
def Initialize.loop (m : Mem) (xsdt : Nat) : Nat → Nat → State → LoopEnd × State
  | room, i, s =>
      if i < XSDT.Count m xsdt then
        let entry := XSDT.get m xsdt i
        let r := DescriptionHeader.IsValid m entry sigFACP
        if r.1 then (.done, { fadt := entry, log := s.log ++ r.2 })
        else
          match room with
          | 0 => (.intOverflow, { s with log := s.log ++ r.2 })
          | room + 1 => Initialize.loop m xsdt room (i + 1) { s with log := s.log ++ r.2 }
      else (.done, s)

/-- The function `acpi::Initialize(rsdp)`, started in state `s`: the root
pointer check, the directory check, `fadt = nullptr`, the scan loop started at
`i = 0`, and the final null check. -/
def Initialize (m : Mem) (rsdp : Nat) (s : State) : Outcome × State :=
  let r := RSDP.IsValid m rsdp
  if !r.1 then
    (.exited 1, { s with log := s.log ++ r.2 ++ [⟨.kError, "RSDP is not valid\n", []⟩] })
  else
    let xsdt := RSDP.xsdt_address m rsdp
    let x := DescriptionHeader.IsValid m xsdt sigXSDT
    if !x.1 then
      (.exited 1,
        { s with log := s.log ++ r.2 ++ x.2 ++ [⟨.kError, "XSDT is not valid\n", []⟩] })
    else
      match Initialize.loop m xsdt INT_MAX 0 { fadt := 0, log := s.log ++ r.2 ++ x.2 } with
      | (.intOverflow, s') => (.intOverflow, s')
      | (.done, s') =>
          if s'.fadt = 0 then
            (.exited 1, { s' with log := s'.log ++ [⟨.kError, "FADT is not found\n", []⟩] })
          else (.returned, s')

/-- The call ended in `exit(1)` and the last message logged is the error
`msg`. -/
def haltsWith (r : Outcome × State) (msg : String) : Prop :=
  r.1 = .exited 1 ∧ r.2.log.getLast? = some ⟨.kError, msg, []⟩

instance (r : Outcome × State) (msg : String) : Decidable (haltsWith r msg) := by
  unfold haltsWith
  infer_instance

/-- The directory entry `i` of the directory at `xsdt` passes
`IsValid("FACP")`. -/
def entryValid (m : Mem) (xsdt i : Nat) : Prop :=
  (DescriptionHeader.IsValid m (XSDT.get m xsdt i) sigFACP).1 = true

instance (m : Mem) (xsdt i : Nat) : Decidable (entryValid m xsdt i) := by
  unfold entryValid
  infer_instance

/-! ## Example memory images -/

/-- A root pointer: signature, revision 2, `xsdt_address = 0x2000`, both
checksums zero. -/
def rsdpBytes : List Byte :=
  [82, 83, 68, 32, 80, 84, 82, 32, 223, 0, 0, 0, 0, 0, 0, 2, 0, 0, 0, 0,
   36, 0, 0, 0, 0, 32, 0, 0, 0, 0, 0, 0, 188, 0, 0, 0]

/-- A directory `"XSDT"` of length 36: no entry, checksum zero. -/
def xsdt0Bytes : List Byte :=
  [88, 83, 68, 84, 36, 0, 0, 0, 1, 152, 0, 0, 0, 0, 0, 0, 0, 0, 0, 0,
   0, 0, 0, 0, 0, 0, 0, 0, 0, 0, 0, 0, 0, 0, 0, 0]

/-- A directory `"XSDT"` of length 44: one entry, the address `0x3000`. -/
def xsdt1Bytes : List Byte :=
  [88, 83, 68, 84, 44, 0, 0, 0, 1, 96, 0, 0, 0, 0, 0, 0, 0, 0, 0, 0,
   0, 0, 0, 0, 0, 0, 0, 0, 0, 0, 0, 0, 0, 0, 0, 0,
   0, 48, 0, 0, 0, 0, 0, 0]

/-- A directory `"XSDT"` of length 52: two entries, `0x3000` and `0x3100`. -/
def xsdt2Bytes : List Byte :=
  [88, 83, 68, 84, 52, 0, 0, 0, 1, 39, 0, 0, 0, 0, 0, 0, 0, 0, 0, 0,
   0, 0, 0, 0, 0, 0, 0, 0, 0, 0, 0, 0, 0, 0, 0, 0,
   0, 48, 0, 0, 0, 0, 0, 0, 0, 49, 0, 0, 0, 0, 0, 0]

/-- A directory `"XSDT"` of length 44 whose one entry is the address `0`. -/
def xsdtNullBytes : List Byte :=
  [88, 83, 68, 84, 44, 0, 0, 0, 1, 144, 0, 0, 0, 0, 0, 0, 0, 0, 0, 0,
   0, 0, 0, 0, 0, 0, 0, 0, 0, 0, 0, 0, 0, 0, 0, 0,
   0, 0, 0, 0, 0, 0, 0, 0]

/-- The table `xsdt1Bytes` with the signature `"XSDP"` and the checksum byte
adjusted to it. -/
def xsdpBytes : List Byte :=
  [88, 83, 68, 80, 44, 0, 0, 0, 1, 100, 0, 0, 0, 0, 0, 0, 0, 0, 0, 0,
   0, 0, 0, 0, 0, 0, 0, 0, 0, 0, 0, 0, 0, 0, 0, 0,
   0, 48, 0, 0, 0, 0, 0, 0]

/-- A header `"XSDT"` whose length field is 0. -/
def xsdtLen0Bytes : List Byte :=
  [88, 83, 68, 84, 0, 0, 0, 0, 1, 0, 0, 0, 0, 0, 0, 0, 0, 0, 0, 0,
   0, 0, 0, 0, 0, 0, 0, 0, 0, 0, 0, 0, 0, 0, 0, 0]

/-- A table `"FACP"` of length 36, checksum zero. -/
def facpBytes : List Byte :=
  [70, 65, 67, 80, 36, 0, 0, 0, 1, 193, 0, 0, 0, 0, 0, 0, 0, 0, 0, 0,
   0, 0, 0, 0, 0, 0, 0, 0, 0, 0, 0, 0, 0, 0, 0, 0]

/-- The table `facpBytes` with its checksum byte off by one. -/
def facpBadBytes : List Byte :=
  [70, 65, 67, 80, 36, 0, 0, 0, 1, 194, 0, 0, 0, 0, 0, 0, 0, 0, 0, 0,
   0, 0, 0, 0, 0, 0, 0, 0, 0, 0, 0, 0, 0, 0, 0, 0]

/-- A table `"APIC"` of length 36, checksum zero. -/
def apicBytes : List Byte :=
  [65, 80, 73, 67, 36, 0, 0, 0, 1, 190, 0, 0, 0, 0, 0, 0, 0, 0, 0, 0,
   0, 0, 0, 0, 0, 0, 0, 0, 0, 0, 0, 0, 0, 0, 0, 0]

/-- Scenario 1: root pointer at `0x1000`, directory with the one entry
`0x3000`, a good `"FACP"` there. -/
def memOneFacp : Mem :=
  Mem.ofRegions [(0x1000, rsdpBytes), (0x2000, xsdt1Bytes), (0x3000, facpBytes)]

/-- Scenario 4: entry 0 is a `"FACP"` with a bad checksum, entry 1 a good
`"FACP"`. -/
def memBadThenGood : Mem :=
  Mem.ofRegions [(0x1000, rsdpBytes), (0x2000, xsdt2Bytes), (0x3000, facpBadBytes),
    (0x3100, facpBytes)]

/-- Scenario 3: the directory carries the signature `"XSDP"`. -/
def memXsdp : Mem :=
  Mem.ofRegions [(0x1000, rsdpBytes), (0x2000, xsdpBytes), (0x3000, facpBytes)]

/-- Scenario 5: a directory with no entry. -/
def memNoEntry : Mem := Mem.ofRegions [(0x1000, rsdpBytes), (0x2000, xsdt0Bytes)]

/-- Scenario 6: the only entry is an `"APIC"` table. -/
def memApic : Mem :=
  Mem.ofRegions [(0x1000, rsdpBytes), (0x2000, xsdt1Bytes), (0x3000, apicBytes)]

/-- A good `"FACP"` table at address `0`, and a directory whose one entry is
the address `0`. -/
def memFacpAtZero : Mem :=
  Mem.ofRegions [(0, facpBytes), (0x1000, rsdpBytes), (0x2000, xsdtNullBytes)]

/-- A directory whose length field is 0; all memory outside the root pointer
and the directory header is zero. -/
def memLen0 : Mem := Mem.ofRegions [(0x1000, rsdpBytes), (0x2000, xsdtLen0Bytes)]

/-- A directory at `0x2000` whose length field is 0, a good `"FACP"` at
`0x1100`, and the address `0x1100` stored in the body slot of index `2 ^ 31`
(at `0x2000 + 36 + 8 * 2 ^ 31`); the slots below it are zero. -/
def memFarEntry : Mem :=
  Mem.ofRegions [(0x1000, rsdpBytes), (0x1100, facpBytes), (0x2000, xsdtLen0Bytes),
    (17179877412, [0, 17, 0, 0, 0, 0, 0, 0])]

/-- A good `"FACP"` table of length 36 at `0x3000`, followed by one byte 255;
zero everywhere else. -/
def memFacpTail : Mem := Mem.ofRegions [(0x3000, facpBytes ++ [255])]

/-- Scenario 1 with the revision byte of the root pointer (offset 15) set to 0,
as in a root pointer of the first ACPI revision; the signature is intact. -/
def memRev0 : Mem := memOneFacp.set (0x1000 + 15) 0

/-- Scenario 1 with the first signature byte of the root pointer changed from
"R" to "X". -/
def memBadSig : Mem := memOneFacp.set 0x1000 88

/-! ## Lemmas on the checksum -/

/-- The checksum loop adds the bytes it visits to its accumulator, modulo 256. -/
theorem SumBytesU8.loop_eq (m : Mem) (data : Nat) :
    ∀ (n i s : Nat), SumBytesU8.loop m data n i (s % 256)
      = (s + ∑ k in Finset.range n, readU8 m (data + (i + k))) % 256 := by
  intro n
  induction n with
  | zero => intro i s; simp [SumBytesU8.loop]
  | succ n ih =>
      intro i s
      rw [SumBytesU8.loop, ih (i + 1) (s % 256 + readU8 m (data + i)), Finset.sum_range_succ']
      have : ∀ k, data + (i + 1 + k) = data + (i + (k + 1)) := fun k => by omega
      simp only [this, Nat.add_zero]
      omega

/-- The checksum is the sum of the bytes of the range, modulo 256. -/
theorem SumBytes_eq (m : Mem) (data n : Nat) :
    SumBytes m data n = (∑ k in Finset.range n, readU8 m (data + k)) % 256 := by
  have h := SumBytesU8.loop_eq m data n 0 0
  simpa [SumBytes, SumBytesU8] using h

/-- The checksum reads only the bytes of its range. -/
theorem SumBytes_congr (m m' : Mem) (data n : Nat)
    (h : ∀ k, k < n → m' (data + k) = m (data + k)) :
    SumBytes m' data n = SumBytes m data n := by
  rw [SumBytes_eq, SumBytes_eq]
  congr 1
  apply Finset.sum_congr rfl
  intro k hk
  simp only [readU8, h k (Finset.mem_range.mp hk)]

/-- A byte of a single-region memory image. -/
theorem readU8_ofRegions_single (data : Nat) (B : List Byte) (k : Nat) (hk : k < B.length) :
    readU8 (Mem.ofRegions [(data, B)]) (data + k) = (B.getD k 0).val := by
  simp [readU8, Mem.ofRegions, hk]

/-- Summing a list by index. -/
theorem sum_range_getD (B : List Byte) :
    (∑ k in Finset.range B.length, (B.getD k 0).val) = (B.map Fin.val).sum := by
  induction B with
  | nil => simp
  | cons b B ih =>
      rw [List.length_cons, Finset.sum_range_succ']
      simp only [List.getD_cons_succ, List.getD_cons_zero, List.map_cons, List.sum_cons]
      rw [ih]
      omega

/-! ## Lemmas on `strncmp` and on reading memory -/

/-- Against a string with no NUL among its first `n` characters, `strncmp`
returns 0 exactly when the first `n` characters agree. -/
theorem strncmp_eq_zero_iff (s1 s2 : Nat → Nat) :
    ∀ (n i : Nat), (∀ k, k < n → s2 (i + k) ≠ 0) →
      (strncmp s1 s2 n i = 0 ↔ ∀ k, k < n → s1 (i + k) = s2 (i + k)) := by
  intro n
  induction n with
  | zero => intro i _; simp [strncmp]
  | succ n ih =>
      intro i h
      rw [strncmp]
      by_cases h1 : s1 i = s2 i
      · have h0 : s1 i ≠ 0 := by
          have := h 0 (by omega)
          simpa [h1] using this
        have ih' := ih (i + 1) (fun k hk => by
          have := h (k + 1) (by omega)
          rwa [show i + 1 + k = i + (k + 1) by omega])
        simp only [h1, ne_eq, not_true_eq_false, if_false]
        rw [if_neg (by rw [← h1]; exact h0), ih']
        constructor
        · intro hh k hk
          rcases k with _ | k
          · simpa using h1
          · have := hh k (by omega)
            rwa [show i + 1 + k = i + (k + 1) by omega] at this
        · intro hh k hk
          have := hh (k + 1) (by omega)
          rwa [show i + 1 + k = i + (k + 1) by omega]
      · simp only [ne_eq, h1, not_false_eq_true, if_true]
        constructor
        · intro hh
          exfalso
          apply h1
          have : (s1 i : Int) = (s2 i : Int) := by omega
          exact_mod_cast this
        · intro hh
          exact absurd (by simpa using hh 0 (by omega)) h1

/-- The library function `strncmp` reads at most `n` characters of its first
argument. -/
theorem strncmp_congr (s1 s1' s2 : Nat → Nat) :
    ∀ (n i : Nat), (∀ k, k < n → s1' (i + k) = s1 (i + k)) →
      strncmp s1' s2 n i = strncmp s1 s2 n i := by
  intro n
  induction n with
  | zero => intro i _; simp [strncmp]
  | succ n ih =>
      intro i h
      have h0 : s1' i = s1 i := by simpa using h 0 (by omega)
      have ih' := ih (i + 1) (fun k hk => by
        have := h (k + 1) (by omega)
        rwa [show i + 1 + k = i + (k + 1) by omega])
      rw [strncmp, strncmp, h0, ih']

/-- The bytes of a range are a given list exactly when the list has the
length of the range and agrees with memory index by index. -/
theorem bytesAt_eq_iff (m : Mem) (p : Nat) (l : List Byte) (n : Nat) :
    bytesAt m p n = l ↔ l.length = n ∧ ∀ k, k < n → readU8 m (p + k) = cstr l k := by
  constructor
  · intro h
    subst h
    refine ⟨by simp [bytesAt], fun k hk => ?_⟩
    simp [bytesAt, cstr, readU8, List.getD, hk]
  · rintro ⟨hl, h⟩
    apply List.ext_getElem
    · simp [bytesAt, hl]
    · intro k h1 h2
      have hk : k < n := by simpa [bytesAt] using h1
      have := h k hk
      simp only [cstr, readU8, List.getD] at this
      rw [List.get?_eq_get h2] at this
      simp only [Option.getD_some] at this
      simp [bytesAt, Fin.ext_iff, this]

/-- The bytes of a range depend on that range only. -/
theorem bytesAt_congr (m m' : Mem) (p n : Nat) (h : ∀ k, k < n → m' (p + k) = m (p + k)) :
    bytesAt m' p n = bytesAt m p n := by
  unfold bytesAt
  apply List.map_congr_left
  intro k hk
  exact h k (List.mem_range.mp hk)

/-- A NUL-free string of length `n` has no NUL among its first `n`
characters. -/
theorem cstr_ne_zero (tag : List Byte) (hnul : ∀ c ∈ tag, c ≠ 0) (k : Nat)
    (hk : k < tag.length) : cstr tag (0 + k) ≠ 0 := by
  have hmem : tag.get ⟨k, hk⟩ ∈ tag := List.get_mem tag k hk
  have := hnul _ hmem
  simp only [cstr, Nat.zero_add, List.getD, List.get?_eq_get hk, Option.getD_some]
  intro h0
  exact this (Fin.ext h0)

/-- Little-endian reads are below `256 ^ n`. -/
theorem readLE_lt (m : Mem) : ∀ (n a : Nat), readLE m a n < 256 ^ n := by
  intro n
  induction n with
  | zero => intro a; simp [readLE]
  | succ n ih =>
      intro a
      have h1 := ih (a + 1)
      have h2 : readU8 m a < 256 := (m a).isLt
      rw [readLE, pow_succ]
      omega

/-- Little-endian reads depend on the bytes read only. -/
theorem readLE_congr (m m' : Mem) :
    ∀ (n a : Nat), (∀ k, k < n → m' (a + k) = m (a + k)) → readLE m' a n = readLE m a n := by
  intro n
  induction n with
  | zero => intro a _; simp [readLE]
  | succ n ih =>
      intro a h
      have h0 : m' a = m a := by simpa using h 0 (by omega)
      have ih' := ih (a + 1) (fun k hk => by
        have := h (k + 1) (by omega)
        rwa [show a + 1 + k = a + (k + 1) by omega])
      rw [readLE, readLE, ih']
      simp only [readU8, h0]

/-- A table's length field is a 32-bit value. -/
theorem DescriptionHeader_length_lt (m : Mem) (self : Nat) :
    DescriptionHeader.length m self < 2 ^ 32 := by
  have := readLE_lt m 4 (self + DescriptionHeader.lengthOffset)
  simpa [DescriptionHeader.length, readU32] using this

/-! ## Lemmas on the validators -/

/-- Against a NUL-free literal of `n` characters, `strncmp(.., n)` returns 0
exactly when the `n` bytes in memory are the literal. -/
theorem strncmp_lit_iff (m : Mem) (p : Nat) (tag : List Byte) (n : Nat) (hlen : tag.length = n)
    (hnul : ∀ c ∈ tag, c ≠ 0) :
    strncmp (fun i => readU8 m (p + i)) (cstr tag) n 0 = 0 ↔ bytesAt m p n = tag := by
  rw [strncmp_eq_zero_iff _ _ n 0 (fun k hk => cstr_ne_zero tag hnul k (by omega)),
    bytesAt_eq_iff]
  simp [hlen]

/-- When `RSDP::IsValid` returns true. -/
theorem RSDP_IsValid_true_iff (m : Mem) (p : Nat) :
    (RSDP.IsValid m p).1 = true ↔
      bytesAt m p 8 = sigRSDPTR ∧ RSDP.revision m p = 2 ∧ SumBytes m p 20 = 0
        ∧ SumBytes m p 36 = 0 := by
  have hs := strncmp_lit_iff m p sigRSDPTR 8 rfl (by simp [sigRSDPTR])
  unfold RSDP.IsValid
  split_ifs with h1 h2 h3 h4
  · simp [← hs, h1]
  · simp [h2]
  · simp [h3]
  · simp [h4]
  · simp only [ne_eq, not_not] at h1 h2 h3 h4
    simp [← hs, h1, h2, h3, h4]

/-- When `DescriptionHeader::IsValid` returns true, for a NUL-free tag of four
characters. -/
theorem DescriptionHeader_IsValid_true_iff (m : Mem) (p : Nat) (tag : List Byte)
    (hlen : tag.length = 4) (hnul : ∀ c ∈ tag, c ≠ 0) :
    (DescriptionHeader.IsValid m p tag).1 = true ↔
      bytesAt m p 4 = tag ∧ SumBytes m p (DescriptionHeader.length m p) = 0 := by
  have hs := strncmp_lit_iff m p tag 4 hlen hnul
  unfold DescriptionHeader.IsValid
  split_ifs with h1 h2
  · simp [← hs, h1]
  · simp [h2]
  · simp only [ne_eq, not_not] at h1 h2
    simp [← hs, h1, h2]

/-! ## The checksum and the validators: claims -/

/-- C1: for every byte range of every length `N`, `N = 0` included,
`SumBytes` returns the sum of the `N` bytes, as natural numbers, modulo 256;
stated for a range of memory, for a byte list laid out in memory, and for the
empty range. -/
theorem C1_SumBytes_is_sum_mod_256 :
    (∀ (m : Mem) (data N : Nat),
        SumBytes m data N = (∑ i in Finset.range N, readU8 m (data + i)) % 256)
    ∧ (∀ (B : List Byte) (data : Nat),
        SumBytes (Mem.ofRegions [(data, B)]) data B.length = (B.map Fin.val).sum % 256)
    ∧ (∀ (m : Mem) (data : Nat), SumBytes m data 0 = 0) := by
  refine ⟨SumBytes_eq, fun B data => ?_, fun m data => by simp [SumBytes_eq]⟩
  rw [SumBytes_eq, ← sum_range_getD]
  congr 1
  apply Finset.sum_congr rfl
  intro k hk
  exact readU8_ofRegions_single data B k (Finset.mem_range.mp hk)

/-- C2: `RSDP::IsValid` returns true if and only if the first 8 bytes are the
ASCII bytes of "RSD PTR ", the byte at offset 15 is 2, the checksum of the
first 20 bytes is 0 and the checksum of the first 36 bytes is 0. -/
theorem C2_RSDP_IsValid_iff (m : Mem) (p : Nat) :
    (RSDP.IsValid m p).1 = true ↔
      bytesAt m p 8 = [82, 83, 68, 32, 80, 84, 82, 32] ∧ readU8 m (p + 15) = 2
        ∧ SumBytes m p 20 = 0 ∧ SumBytes m p 36 = 0 :=
  RSDP_IsValid_true_iff m p

/-- C3: for a NUL-free tag of four characters, `DescriptionHeader::IsValid(tag)`
returns true if and only if the first 4 bytes of the table are the tag and the
checksum of the first `length` bytes from the header's own address is 0, where
`length` is the 32-bit field at offset 4. -/
theorem C3_DescriptionHeader_IsValid_iff (m : Mem) (p : Nat) (tag : List Byte)
    (hlen : tag.length = 4) (hnul : ∀ c ∈ tag, c ≠ 0) :
    (DescriptionHeader.IsValid m p tag).1 = true ↔
      bytesAt m p 4 = tag ∧ SumBytes m p (readU32 m (p + 4)) = 0 :=
  DescriptionHeader_IsValid_true_iff m p tag hlen hnul

/-- C3 at the `"FACP"` table of scenario 1, where both sides hold. -/
theorem C3_DescriptionHeader_IsValid_iff_witness :
    sigFACP.length = 4 ∧ (∀ c ∈ sigFACP, c ≠ 0)
      ∧ (DescriptionHeader.IsValid memOneFacp 0x3000 sigFACP).1 = true
      ∧ ((DescriptionHeader.IsValid memOneFacp 0x3000 sigFACP).1 = true ↔
          bytesAt memOneFacp 0x3000 4 = sigFACP
            ∧ SumBytes memOneFacp 0x3000 (readU32 memOneFacp (0x3000 + 4)) = 0) :=
  ⟨rfl, by simp [sigFACP], by decide,
    C3_DescriptionHeader_IsValid_iff memOneFacp 0x3000 sigFACP rfl (by simp [sigFACP])⟩

/-! ## The directory: claims -/

/-- C9: for a directory whose `header.length` `L` is at least 36, `XSDT::Count`
is `(L - 36) / 8` rounded down; it is 0 when `L` is 36. -/
theorem C9_Count_eq (m : Mem) (D : Nat) (h : 36 ≤ DescriptionHeader.length m D) :
    XSDT.Count m D = (DescriptionHeader.length m D - 36) / 8
      ∧ (DescriptionHeader.length m D = 36 → XSDT.Count m D = 0) := by
  have hlt := DescriptionHeader_length_lt m D
  have e32 : (2 : Nat) ^ 32 = 4294967296 := by norm_num
  have e64 : (2 : Nat) ^ 64 = 18446744073709551616 := by norm_num
  have hsub : (DescriptionHeader.length m D + 2 ^ 64 - 36) % 2 ^ 64
      = DescriptionHeader.length m D - 36 := by
    rw [show DescriptionHeader.length m D + 2 ^ 64 - 36
        = (DescriptionHeader.length m D - 36) + 2 ^ 64 by omega,
      Nat.add_mod_right, Nat.mod_eq_of_lt]
    rw [e32] at hlt
    rw [e64]
    omega
  simp only [XSDT.Count, sizeofDescriptionHeader, sizeofU64, hsub]
  refine ⟨trivial, fun h36 => ?_⟩
  rw [h36]

/-- C9 at the one-entry directory of scenario 1 (length 44, count 1) and at the
empty directory of scenario 5 (length 36, count 0). -/
theorem C9_Count_eq_witness :
    36 ≤ DescriptionHeader.length memOneFacp 0x2000
      ∧ XSDT.Count memOneFacp 0x2000 = 1
      ∧ (XSDT.Count memOneFacp 0x2000 = (DescriptionHeader.length memOneFacp 0x2000 - 36) / 8
          ∧ (DescriptionHeader.length memOneFacp 0x2000 = 36 → XSDT.Count memOneFacp 0x2000 = 0))
      ∧ XSDT.Count memNoEntry 0x2000 = 0 :=
  ⟨by decide, by decide, C9_Count_eq memOneFacp 0x2000 (by decide), by decide⟩

/-- C10: `XSDT::operator[](i)` on the directory at `D` yields the table at the
address that the 8 bytes at `D + 36 + 8 * i` spell as a little-endian unsigned
64-bit integer; the slot of a smaller index lies wholly before the slot of a
larger one, so increasing indices walk the body array in order. -/
theorem C10_operator_index (m : Mem) (D i : Nat) :
    XSDT.get m D i = (∑ k in Finset.range 8, readU8 m (D + 36 + 8 * i + k) * 256 ^ k)
      ∧ XSDT.get m D i < 2 ^ 64
      ∧ XSDT.entries D + i * sizeofU64 = D + 36 + 8 * i
      ∧ ∀ j, i < j → XSDT.entries D + i * sizeofU64 + 8 ≤ XSDT.entries D + j * sizeofU64 := by
  have haddr : XSDT.entries D + i * sizeofU64 = D + 36 + 8 * i := by
    simp only [XSDT.entries, sizeofDescriptionHeader, sizeofU64]
    omega
  refine ⟨?_, ?_, haddr, ?_⟩
  · simp only [XSDT.get, haddr, readU64, readLE, Finset.sum_range_succ, Finset.sum_range_zero]
    have e : ∀ a k : Nat, a + 1 + k = a + (k + 1) := fun a k => by omega
    simp only [Nat.add_assoc, Nat.reduceAdd]
    norm_num
    ring
  · have := readLE_lt m 8 (XSDT.entries D + i * sizeofU64)
    simpa [XSDT.get, readU64] using this
  · intro j hj
    simp only [sizeofU64]
    omega

/-- C10 on the two-entry directory of scenario 4: entry 0 is `0x3000`, entry 1
is `0x3100`, and slot 0 ends where slot 1 begins. -/
theorem C10_operator_index_witness :
    XSDT.get memBadThenGood 0x2000 0 = 0x3000 ∧ XSDT.get memBadThenGood 0x2000 1 = 0x3100
      ∧ XSDT.entries 0x2000 + 0 * sizeofU64 + 8 ≤ XSDT.entries 0x2000 + 1 * sizeofU64 :=
  ⟨by decide, by decide, (C10_operator_index memBadThenGood 0x2000 0).2.2.2 1 (by decide)⟩

/-! ## Lemmas on `Initialize` -/

/-- The scan loop ends at once when the counter has reached the count. -/
theorem Initialize.loop_stop (m : Mem) (D room i : Nat) (s : State)
    (hc : ¬ i < XSDT.Count m D) : Initialize.loop m D room i s = (.done, s) := by
  unfold Initialize.loop
  simp [hc]

/-- The scan loop publishes the entry at the counter and stops when that entry
is valid. -/
theorem Initialize.loop_found (m : Mem) (D room i : Nat) (s : State)
    (hc : i < XSDT.Count m D) (hv : entryValid m D i) :
    Initialize.loop m D room i s
      = (.done, { fadt := XSDT.get m D i,
                  log := s.log ++ (DescriptionHeader.IsValid m (XSDT.get m D i) sigFACP).2 }) := by
  unfold entryValid at hv
  unfold Initialize.loop
  simp [hc, hv]

/-- The scan loop overflows its counter when the entry at `INT_MAX` is within
the count and not valid. -/
theorem Initialize.loop_overflow (m : Mem) (D i : Nat) (s : State)
    (hc : i < XSDT.Count m D) (hv : ¬ entryValid m D i) :
    Initialize.loop m D 0 i s
      = (.intOverflow, { s with
          log := s.log ++ (DescriptionHeader.IsValid m (XSDT.get m D i) sigFACP).2 }) := by
  unfold entryValid at hv
  unfold Initialize.loop
  simp [hc, hv]

/-- The scan loop moves on to the next counter value past an entry that is not
valid. -/
theorem Initialize.loop_next (m : Mem) (D room i : Nat) (s : State)
    (hc : i < XSDT.Count m D) (hv : ¬ entryValid m D i) :
    Initialize.loop m D (room + 1) i s
      = Initialize.loop m D room (i + 1) { s with
          log := s.log ++ (DescriptionHeader.IsValid m (XSDT.get m D i) sigFACP).2 } := by
  unfold entryValid at hv
  rw [Initialize.loop]
  simp [hc, hv]

/-- The three ways the scan loop can end: at the first valid entry, at the end
of the directory, or by overflow of its counter. -/
theorem Initialize.loop_spec (m : Mem) (D : Nat) :
    ∀ (room i : Nat) (s : State),
      (∃ j, i ≤ j ∧ j < XSDT.Count m D ∧ j ≤ i + room ∧ entryValid m D j
          ∧ (∀ k, i ≤ k → k < j → ¬ entryValid m D k)
          ∧ (Initialize.loop m D room i s).1 = .done
          ∧ (Initialize.loop m D room i s).2.fadt = XSDT.get m D j)
      ∨ (XSDT.Count m D ≤ i + room
          ∧ (∀ k, i ≤ k → k < XSDT.Count m D → ¬ entryValid m D k)
          ∧ (Initialize.loop m D room i s).1 = .done
          ∧ (Initialize.loop m D room i s).2.fadt = s.fadt)
      ∨ (i + room < XSDT.Count m D
          ∧ (∀ k, i ≤ k → k ≤ i + room → ¬ entryValid m D k)
          ∧ (Initialize.loop m D room i s).1 = .intOverflow) := by
  intro room
  induction room with
  | zero =>
      intro i s
      by_cases hc : i < XSDT.Count m D
      · by_cases hv : entryValid m D i
        · left
          rw [Initialize.loop_found m D 0 i s hc hv]
          exact ⟨i, le_refl _, hc, by omega, hv, fun k h1 h2 => by omega, rfl, rfl⟩
        · right; right
          rw [Initialize.loop_overflow m D i s hc hv]
          refine ⟨by omega, fun k h1 h2 => ?_, rfl⟩
          have : k = i := by omega
          subst this; exact hv
      · right; left
        rw [Initialize.loop_stop m D 0 i s hc]
        exact ⟨by omega, fun k h1 h2 => by omega, rfl, rfl⟩
  | succ room ih =>
      intro i s
      by_cases hc : i < XSDT.Count m D
      · by_cases hv : entryValid m D i
        · left
          rw [Initialize.loop_found m D (room + 1) i s hc hv]
          exact ⟨i, le_refl _, hc, by omega, hv, fun k h1 h2 => by omega, rfl, rfl⟩
        · rw [Initialize.loop_next m D room i s hc hv]
          rcases ih (i + 1) { s with
              log := s.log ++ (DescriptionHeader.IsValid m (XSDT.get m D i) sigFACP).2 } with
            ⟨j, h1, h2, h3, h4, h5, h6, h7⟩ | ⟨h1, h2, h3, h4⟩ | ⟨h1, h2, h3⟩
          · left
            refine ⟨j, by omega, h2, by omega, h4, fun k hk1 hk2 => ?_, h6, h7⟩
            by_cases hki : k = i
            · subst hki; exact hv
            · exact h5 k (by omega) hk2
          · right; left
            refine ⟨by omega, fun k hk1 hk2 => ?_, h3, h4⟩
            by_cases hki : k = i
            · subst hki; exact hv
            · exact h2 k (by omega) hk2
          · right; right
            refine ⟨by omega, fun k hk1 hk2 => ?_, h3⟩
            by_cases hki : k = i
            · subst hki; exact hv
            · exact h2 k (by omega) (by omega)
      · right; left
        rw [Initialize.loop_stop m D (room + 1) i s hc]
        exact ⟨by omega, fun k h1 h2 => by omega, rfl, rfl⟩

/-- The root pointer validator reads the 36 bytes of the structure only. -/
theorem RSDP_IsValid_congr (m m' : Mem) (p : Nat) (h : ∀ k, k < 36 → m' (p + k) = m (p + k)) :
    RSDP.IsValid m' p = RSDP.IsValid m p := by
  have h1 : strncmp (fun i => readU8 m' (p + i)) (cstr sigRSDPTR) 8 0
      = strncmp (fun i => readU8 m (p + i)) (cstr sigRSDPTR) 8 0 :=
    strncmp_congr _ _ _ 8 0 (fun k hk => by
      simp only [readU8, Nat.zero_add, h k (by omega)])
  have h2 : bytesAt m' p 8 = bytesAt m p 8 := bytesAt_congr m m' p 8 (fun k hk => h k (by omega))
  have h3 : RSDP.revision m' p = RSDP.revision m p := by
    simp only [RSDP.revision, readU8, RSDP.revisionOffset, h 15 (by omega)]
  have h4 : SumBytes m' p 20 = SumBytes m p 20 :=
    SumBytes_congr m m' p 20 (fun k hk => h k (by omega))
  have h5 : SumBytes m' p 36 = SumBytes m p 36 := SumBytes_congr m m' p 36 h
  simp only [RSDP.IsValid, h1, h2, h3, h4, h5]

/-- The directory address is read from the 36 bytes of the root pointer. -/
theorem RSDP_xsdt_address_congr (m m' : Mem) (p : Nat)
    (h : ∀ k, k < 36 → m' (p + k) = m (p + k)) :
    RSDP.xsdt_address m' p = RSDP.xsdt_address m p := by
  unfold RSDP.xsdt_address readU64
  apply readLE_congr
  intro k hk
  simp only [RSDP.xsdtAddressOffset]
  rw [Nat.add_assoc]
  exact h (24 + k) (by omega)

/-- The header validator reads the first 8 bytes of the table and the bytes
the length field spans only. -/
theorem DescriptionHeader_IsValid_congr (m m' : Mem) (p : Nat) (tag : List Byte)
    (h8 : ∀ k, k < 8 → m' (p + k) = m (p + k))
    (hL : ∀ k, k < DescriptionHeader.length m p → m' (p + k) = m (p + k)) :
    DescriptionHeader.IsValid m' p tag = DescriptionHeader.IsValid m p tag := by
  have h1 : strncmp (fun i => readU8 m' (p + i)) (cstr tag) 4 0
      = strncmp (fun i => readU8 m (p + i)) (cstr tag) 4 0 :=
    strncmp_congr _ _ _ 4 0 (fun k hk => by
      simp only [readU8, Nat.zero_add, h8 k (by omega)])
  have h2 : DescriptionHeader.length m' p = DescriptionHeader.length m p := by
    unfold DescriptionHeader.length readU32
    apply readLE_congr
    intro k hk
    simp only [DescriptionHeader.lengthOffset]
    rw [Nat.add_assoc]
    exact h8 (4 + k) (by omega)
  have h3 : SumBytes m' p (DescriptionHeader.length m p)
      = SumBytes m p (DescriptionHeader.length m p) := SumBytes_congr m m' p _ hL
  simp only [DescriptionHeader.IsValid, h1, h2, h3]

/-- The path of `Initialize` for a root pointer that is not valid. -/
theorem Initialize_rsdp_invalid (m : Mem) (rsdp : Nat) (s : State)
    (h : (RSDP.IsValid m rsdp).1 = false) :
    Initialize m rsdp s = (.exited 1, { s with
      log := s.log ++ (RSDP.IsValid m rsdp).2 ++ [⟨.kError, "RSDP is not valid\n", []⟩] }) := by
  simp [Initialize, h]

/-- The path of `Initialize` for a directory that is not valid. -/
theorem Initialize_xsdt_invalid (m : Mem) (rsdp : Nat) (s : State)
    (hr : (RSDP.IsValid m rsdp).1 = true)
    (hx : (DescriptionHeader.IsValid m (RSDP.xsdt_address m rsdp) sigXSDT).1 = false) :
    Initialize m rsdp s = (.exited 1, { s with
      log := s.log ++ (RSDP.IsValid m rsdp).2
        ++ (DescriptionHeader.IsValid m (RSDP.xsdt_address m rsdp) sigXSDT).2
        ++ [⟨.kError, "XSDT is not valid\n", []⟩] }) := by
  simp [Initialize, hr, hx]

/-- A successful root pointer validation logs nothing. -/
theorem RSDP_IsValid_log_nil (m : Mem) (p : Nat) (h : (RSDP.IsValid m p).1 = true) :
    (RSDP.IsValid m p).2 = [] := by
  unfold RSDP.IsValid at h ⊢
  split_ifs at h ⊢
  all_goals simp_all

/-- A successful header validation logs nothing. -/
theorem DescriptionHeader_IsValid_log_nil (m : Mem) (p : Nat) (tag : List Byte)
    (h : (DescriptionHeader.IsValid m p tag).1 = true) :
    (DescriptionHeader.IsValid m p tag).2 = [] := by
  unfold DescriptionHeader.IsValid at h ⊢
  split_ifs at h ⊢
  all_goals simp_all

/-- With a valid root pointer and a valid directory, the end of `Initialize`
is decided by the end of the scan loop. -/
theorem Initialize_of_loop (m : Mem) (rsdp : Nat) (s : State)
    (hr : (RSDP.IsValid m rsdp).1 = true)
    (hx : (DescriptionHeader.IsValid m (RSDP.xsdt_address m rsdp) sigXSDT).1 = true) :
    ((Initialize.loop m (RSDP.xsdt_address m rsdp) INT_MAX 0 ⟨0, s.log⟩).1 = .intOverflow →
        (Initialize m rsdp s).1 = .intOverflow)
    ∧ ((Initialize.loop m (RSDP.xsdt_address m rsdp) INT_MAX 0 ⟨0, s.log⟩).1 = .done →
        (Initialize.loop m (RSDP.xsdt_address m rsdp) INT_MAX 0 ⟨0, s.log⟩).2.fadt = 0 →
        haltsWith (Initialize m rsdp s) "FADT is not found\n" ∧ (Initialize m rsdp s).2.fadt = 0)
    ∧ ((Initialize.loop m (RSDP.xsdt_address m rsdp) INT_MAX 0 ⟨0, s.log⟩).1 = .done →
        (Initialize.loop m (RSDP.xsdt_address m rsdp) INT_MAX 0 ⟨0, s.log⟩).2.fadt ≠ 0 →
        (Initialize m rsdp s).1 = .returned
          ∧ (Initialize m rsdp s).2.fadt
            = (Initialize.loop m (RSDP.xsdt_address m rsdp) INT_MAX 0 ⟨0, s.log⟩).2.fadt) := by
  unfold Initialize
  simp only [hr, hx, RSDP_IsValid_log_nil m rsdp hr,
    DescriptionHeader_IsValid_log_nil m _ sigXSDT hx, List.append_nil, Bool.not_true,
    Bool.false_eq_true, if_false]
  rcases Initialize.loop m (RSDP.xsdt_address m rsdp) INT_MAX 0 ⟨0, s.log⟩ with ⟨e', s'⟩
  cases e' with
  | intOverflow => simp
  | done =>
      by_cases hf : s'.fadt = 0
      · simp [hf, haltsWith]
      · simp [hf]

/-- With a valid root pointer and a valid directory, `Initialize` ends in one
of three ways: it reaches a first valid entry (and returns, or halts when that
entry lies at address 0), it exhausts the directory and halts, or its `int`
counter overflows. -/
theorem Initialize_cases (m : Mem) (rsdp : Nat) (s : State)
    (hr : (RSDP.IsValid m rsdp).1 = true)
    (hx : (DescriptionHeader.IsValid m (RSDP.xsdt_address m rsdp) sigXSDT).1 = true) :
    (∃ j, j < XSDT.Count m (RSDP.xsdt_address m rsdp) ∧ j ≤ INT_MAX
        ∧ entryValid m (RSDP.xsdt_address m rsdp) j
        ∧ (∀ k, k < j → ¬ entryValid m (RSDP.xsdt_address m rsdp) k)
        ∧ ((XSDT.get m (RSDP.xsdt_address m rsdp) j ≠ 0
              ∧ (Initialize m rsdp s).1 = .returned
              ∧ (Initialize m rsdp s).2.fadt = XSDT.get m (RSDP.xsdt_address m rsdp) j)
          ∨ (XSDT.get m (RSDP.xsdt_address m rsdp) j = 0
              ∧ haltsWith (Initialize m rsdp s) "FADT is not found\n"
              ∧ (Initialize m rsdp s).2.fadt = 0)))
    ∨ (XSDT.Count m (RSDP.xsdt_address m rsdp) ≤ INT_MAX
        ∧ (∀ k, k < XSDT.Count m (RSDP.xsdt_address m rsdp) →
            ¬ entryValid m (RSDP.xsdt_address m rsdp) k)
        ∧ haltsWith (Initialize m rsdp s) "FADT is not found\n"
        ∧ (Initialize m rsdp s).2.fadt = 0)
    ∨ (INT_MAX < XSDT.Count m (RSDP.xsdt_address m rsdp)
        ∧ (∀ k, k ≤ INT_MAX → ¬ entryValid m (RSDP.xsdt_address m rsdp) k)
        ∧ (Initialize m rsdp s).1 = .intOverflow) := by
  obtain ⟨ho, hd0, hd1⟩ := Initialize_of_loop m rsdp s hr hx
  rcases Initialize.loop_spec m (RSDP.xsdt_address m rsdp) INT_MAX 0 ⟨0, s.log⟩ with
    ⟨j, _, h2, h3, h4, h5, h6, h7⟩ | ⟨h1, h2, h3, h4⟩ | ⟨h1, h2, h3⟩
  · left
    refine ⟨j, h2, by omega, h4, fun k hk => h5 k (Nat.zero_le _) hk, ?_⟩
    by_cases hz : XSDT.get m (RSDP.xsdt_address m rsdp) j = 0
    · right
      exact ⟨hz, hd0 h6 (by rw [h7, hz])⟩
    · left
      have := hd1 h6 (by rw [h7]; exact hz)
      exact ⟨hz, this.1, by rw [this.2, h7]⟩
  · right; left
    refine ⟨by omega, fun k hk => h2 k (Nat.zero_le _) hk, hd0 h3 h4⟩
  · right; right
    exact ⟨by omega, fun k hk => h2 k (Nat.zero_le _) (by omega), ho h3⟩

/-- A call that halted did not return. -/
theorem haltsWith_not_returned (r : Outcome × State) (msg : String) (h : haltsWith r msg) :
    r.1 ≠ .returned := by
  intro h'
  have := h.1
  rw [h'] at this
  cases this

/-- A directory of length at least 36 has at most `INT_MAX` entries. -/
theorem Count_le_of_length (m : Mem) (D : Nat) (h : 36 ≤ DescriptionHeader.length m D) :
    XSDT.Count m D ≤ INT_MAX := by
  have hlt := DescriptionHeader_length_lt m D
  have e32 : (2 : Nat) ^ 32 = 4294967296 := by norm_num
  have e31 : (2 : Nat) ^ 31 = 2147483648 := by norm_num
  have hsub : (DescriptionHeader.length m D + 2 ^ 64 - 36) % 2 ^ 64
      = DescriptionHeader.length m D - 36 := by
    rw [show DescriptionHeader.length m D + 2 ^ 64 - 36
        = (DescriptionHeader.length m D - 36) + 2 ^ 64 by omega,
      Nat.add_mod_right, Nat.mod_eq_of_lt]
    rw [e32] at hlt
    have e64 : (2 : Nat) ^ 64 = 18446744073709551616 := by norm_num
    rw [e64]
    omega
  simp only [XSDT.Count, sizeofDescriptionHeader, sizeofU64, hsub, INT_MAX, e31]
  rw [e32] at hlt
  omega

/-! ## Lemmas on the example images -/

/-- Zero bytes read as the integer 0. -/
theorem readLE_zero (m : Mem) :
    ∀ (n a : Nat), (∀ k, k < n → m (a + k) = 0) → readLE m a n = 0 := by
  intro n
  induction n with
  | zero => intro a _; simp [readLE]
  | succ n ih =>
      intro a h
      have h0 : m a = 0 := by simpa using h 0 (by omega)
      have ih' := ih (a + 1) (fun k hk => by
        have := h (k + 1) (by omega)
        rwa [show a + 1 + k = a + (k + 1) by omega])
      rw [readLE, ih']
      simp [readU8, h0]

/-- A directory slot of zero bytes is an entry at address 0; it is not valid
when the table at address 0 is not. -/
theorem entry_invalid_of_zero (m : Mem) (D j : Nat)
    (hz : ∀ k, k < 8 → m (D + 36 + 8 * j + k) = 0)
    (h0 : (DescriptionHeader.IsValid m 0 sigFACP).1 = false) : ¬ entryValid m D j := by
  have hg : XSDT.get m D j = 0 := by
    unfold XSDT.get readU64
    apply readLE_zero
    intro k hk
    have := hz k hk
    rwa [show XSDT.entries D + j * sizeofU64 = D + 36 + 8 * j by
      simp only [XSDT.entries, sizeofDescriptionHeader, sizeofU64]; omega]
  unfold entryValid
  rw [hg, h0]
  simp

/-- The image `memFarEntry` is zero from the end of the directory header up to
the slot of index `2 ^ 31`. -/
theorem memFarEntry_zero (a : Nat) (h1 : 8228 ≤ a) (h2 : a < 17179877412) :
    memFarEntry a = 0 := by
  simp only [memFarEntry, Mem.ofRegions, rsdpBytes, facpBytes, xsdtLen0Bytes, List.length_cons,
    List.length_nil]
  rw [if_neg (by omega), if_neg (by omega), if_neg (by omega), if_neg (by omega)]

/-- The image `memLen0` is zero from the end of the directory header on. -/
theorem memLen0_zero (a : Nat) (h1 : 8228 ≤ a) : memLen0 a = 0 := by
  simp only [memLen0, Mem.ofRegions, rsdpBytes, xsdtLen0Bytes, List.length_cons,
    List.length_nil]
  rw [if_neg (by omega), if_neg (by omega)]

/-- In `memFarEntry` no entry of index up to `INT_MAX` is valid. -/
theorem memFarEntry_invalid (j : Nat) (hj : j ≤ INT_MAX) : ¬ entryValid memFarEntry 0x2000 j := by
  apply entry_invalid_of_zero
  · intro k hk
    have e31 : INT_MAX = 2147483647 := by decide
    rw [e31] at hj
    exact memFarEntry_zero _ (by omega) (by omega)
  · decide

/-- In `memLen0` no entry is valid. -/
theorem memLen0_invalid (j : Nat) : ¬ entryValid memLen0 0x2000 j := by
  apply entry_invalid_of_zero
  · intro k hk
    exact memLen0_zero _ (by omega)
  · decide

/-! ## Lemmas on replacing a byte -/

/-- Replacing a byte leaves the other bytes. -/
theorem readU8_set_ne (m : Mem) (a x : Nat) (b : Byte) (h : x ≠ a) :
    readU8 (m.set a b) x = readU8 m x := by
  simp [readU8, Mem.set, h]

/-- Replacing a byte yields that byte. -/
theorem readU8_set_eq (m : Mem) (a : Nat) (b : Byte) : readU8 (m.set a b) a = b.val := by
  simp [readU8, Mem.set]

/-- Replacing a byte past a range leaves the sum of the range. -/
theorem sum_set_of_le (m : Mem) (p idx : Nat) (b : Byte) :
    ∀ n, n ≤ idx →
      (∑ k in Finset.range n, readU8 (m.set (p + idx) b) (p + k))
        = ∑ k in Finset.range n, readU8 m (p + k) := by
  intro n hn
  apply Finset.sum_congr rfl
  intro k hk
  have := Finset.mem_range.mp hk
  exact readU8_set_ne m _ _ b (by omega)

/-- Replacing a byte of a range trades the old byte for the new one in the
sum of the range. -/
theorem sum_set_of_lt (m : Mem) (p idx : Nat) (b : Byte) :
    ∀ n, idx < n →
      (∑ k in Finset.range n, readU8 (m.set (p + idx) b) (p + k)) + readU8 m (p + idx)
        = (∑ k in Finset.range n, readU8 m (p + k)) + b.val := by
  intro n
  induction n with
  | zero => intro h; omega
  | succ n ih =>
      intro h
      rw [Finset.sum_range_succ, Finset.sum_range_succ]
      by_cases hn : idx = n
      · subst hn
        rw [sum_set_of_le m p idx b idx (le_refl _), readU8_set_eq]
        omega
      · have := ih (by omega)
        rw [readU8_set_ne m _ _ b (by omega)]
        omega

/-- Replacing a byte of a range trades the old byte for the new one in the
checksum of the range. -/
theorem SumBytes_set (m : Mem) (p idx n : Nat) (b : Byte) (h : idx < n) :
    (SumBytes (m.set (p + idx) b) p n + readU8 m (p + idx)) % 256
      = (SumBytes m p n + b.val) % 256 := by
  rw [SumBytes_eq, SumBytes_eq]
  have := sum_set_of_lt m p idx b n h
  omega

/-- The checksum is an 8-bit value. -/
theorem SumBytes_lt (m : Mem) (p n : Nat) : SumBytes m p n < 256 := by
  rw [SumBytes_eq]
  exact Nat.mod_lt _ (by norm_num)

/-- Adding 1 to the checksum byte of a valid root pointer makes the sum of its
first 20 bytes 1, which `RSDP::IsValid` reports. -/
theorem RSDP.IsValid_bump_checksum (m : Mem) (p : Nat) (h : (RSDP.IsValid m p).1 = true) :
    RSDP.IsValid (m.set (p + 8) (m (p + 8) + 1)) p
      = (false, [⟨.kDebug, "sum of 20 bytes must be 0: %d\n", [.num 1]⟩]) := by
  obtain ⟨h1, h2, h3, _⟩ := (RSDP_IsValid_true_iff m p).mp h
  have hb : bytesAt (m.set (p + 8) (m (p + 8) + 1)) p 8 = sigRSDPTR := by
    rw [← h1]
    apply bytesAt_congr
    intro k hk
    simp only [Mem.set]
    rw [if_neg (by omega)]
  have hs : strncmp (fun i => readU8 (m.set (p + 8) (m (p + 8) + 1)) (p + i)) (cstr sigRSDPTR) 8 0
      = 0 := (strncmp_lit_iff _ p sigRSDPTR 8 rfl (by simp [sigRSDPTR])).mpr hb
  have hrev : RSDP.revision (m.set (p + 8) (m (p + 8) + 1)) p = 2 := by
    rw [← h2]
    simp only [RSDP.revision, RSDP.revisionOffset]
    exact readU8_set_ne m _ _ _ (by omega)
  have hsum : SumBytes (m.set (p + 8) (m (p + 8) + 1)) p 20 = 1 := by
    have e := SumBytes_set m p 8 20 (m (p + 8) + 1) (by omega)
    have hlt := SumBytes_lt (m.set (p + 8) (m (p + 8) + 1)) p 20
    have hv : (m (p + 8) + 1).val = ((m (p + 8)).val + 1) % 256 := by
      rw [Fin.val_add]
      rfl
    have hold : (m (p + 8)).val < 256 := (m (p + 8)).isLt
    rw [h3, hv] at e
    simp only [readU8] at e
    omega
  simp [RSDP.IsValid, hs, hrev, hsum]

/-! ## The orchestrator: claims -/

/-- C4: whenever `Initialize` returns normally, the published `fadt` is the
directory entry at the least index `i` below `Count()` that passes
`IsValid("FACP")`, and every entry below `i` fails it; an entry whose signature
is "FACP" but whose whole-table checksum is nonzero fails it and is passed
over, so with such an entry at index 0 and a valid entry at index 1, entry 1 is
published. -/
theorem C4_first_valid_entry_published (m : Mem) (rsdp : Nat) (s : State)
    (h : (Initialize m rsdp s).1 = .returned) :
    (∃ i, i < XSDT.Count m (RSDP.xsdt_address m rsdp)
        ∧ entryValid m (RSDP.xsdt_address m rsdp) i
        ∧ (∀ j, j < i → ¬ entryValid m (RSDP.xsdt_address m rsdp) j)
        ∧ (Initialize m rsdp s).2.fadt = XSDT.get m (RSDP.xsdt_address m rsdp) i)
    ∧ (∀ j, bytesAt m (XSDT.get m (RSDP.xsdt_address m rsdp) j) 4 = sigFACP →
        SumBytes m (XSDT.get m (RSDP.xsdt_address m rsdp) j)
          (DescriptionHeader.length m (XSDT.get m (RSDP.xsdt_address m rsdp) j)) ≠ 0 →
        ¬ entryValid m (RSDP.xsdt_address m rsdp) j)
    ∧ (1 < XSDT.Count m (RSDP.xsdt_address m rsdp) →
        bytesAt m (XSDT.get m (RSDP.xsdt_address m rsdp) 0) 4 = sigFACP →
        SumBytes m (XSDT.get m (RSDP.xsdt_address m rsdp) 0)
          (DescriptionHeader.length m (XSDT.get m (RSDP.xsdt_address m rsdp) 0)) ≠ 0 →
        entryValid m (RSDP.xsdt_address m rsdp) 1 →
        (Initialize m rsdp s).2.fadt = XSDT.get m (RSDP.xsdt_address m rsdp) 1) := by
  have hbad : ∀ j, bytesAt m (XSDT.get m (RSDP.xsdt_address m rsdp) j) 4 = sigFACP →
      SumBytes m (XSDT.get m (RSDP.xsdt_address m rsdp) j)
        (DescriptionHeader.length m (XSDT.get m (RSDP.xsdt_address m rsdp) j)) ≠ 0 →
      ¬ entryValid m (RSDP.xsdt_address m rsdp) j := by
    intro j _ hsum hv
    have := (DescriptionHeader_IsValid_true_iff m _ sigFACP rfl (by simp [sigFACP])).mp hv
    exact hsum this.2
  have hr : (RSDP.IsValid m rsdp).1 = true := by
    by_contra hr
    have hr' : (RSDP.IsValid m rsdp).1 = false := by simpa using hr
    rw [Initialize_rsdp_invalid m rsdp s hr'] at h
    cases h
  have hx : (DescriptionHeader.IsValid m (RSDP.xsdt_address m rsdp) sigXSDT).1 = true := by
    by_contra hx
    have hx' : (DescriptionHeader.IsValid m (RSDP.xsdt_address m rsdp) sigXSDT).1 = false := by
      simpa using hx
    rw [Initialize_xsdt_invalid m rsdp s hr hx'] at h
    cases h
  have hfirst : ∃ i, i < XSDT.Count m (RSDP.xsdt_address m rsdp)
      ∧ entryValid m (RSDP.xsdt_address m rsdp) i
      ∧ (∀ j, j < i → ¬ entryValid m (RSDP.xsdt_address m rsdp) j)
      ∧ (Initialize m rsdp s).2.fadt = XSDT.get m (RSDP.xsdt_address m rsdp) i := by
    rcases Initialize_cases m rsdp s hr hx with
      ⟨j, h1, _, h3, h4, ⟨_, _, h7⟩ | ⟨_, h6, _⟩⟩ | ⟨_, _, h3, _⟩ | ⟨_, _, h3⟩
    · exact ⟨j, h1, h3, h4, h7⟩
    · exact absurd h (haltsWith_not_returned _ _ h6)
    · exact absurd h (haltsWith_not_returned _ _ h3)
    · rw [h3] at h
      cases h
  refine ⟨hfirst, hbad, fun _ hsig hsum hv1 => ?_⟩
  obtain ⟨i, _, hvi, hlow, hf⟩ := hfirst
  have h0 := hbad 0 hsig hsum
  have hi : i = 1 := by
    rcases Nat.lt_trichotomy i 1 with hlt | heq | hgt
    · have : i = 0 := by omega
      subst this
      exact absurd hvi h0
    · exact heq
    · exact absurd hv1 (hlow 1 hgt)
  rw [hf, hi]

/-- C4 on scenario 4: the call returns and publishes entry 1, at `0x3100`. -/
theorem C4_first_valid_entry_published_witness :
    (Initialize memBadThenGood 0x1000 ⟨0, []⟩).1 = .returned
    ∧ (Initialize memBadThenGood 0x1000 ⟨0, []⟩).2.fadt = 0x3100
    ∧ XSDT.get memBadThenGood (RSDP.xsdt_address memBadThenGood 0x1000) 1 = 0x3100
    ∧ (∃ i, i < XSDT.Count memBadThenGood (RSDP.xsdt_address memBadThenGood 0x1000)
        ∧ entryValid memBadThenGood (RSDP.xsdt_address memBadThenGood 0x1000) i
        ∧ (∀ j, j < i → ¬ entryValid memBadThenGood (RSDP.xsdt_address memBadThenGood 0x1000) j)
        ∧ (Initialize memBadThenGood 0x1000 ⟨0, []⟩).2.fadt
            = XSDT.get memBadThenGood (RSDP.xsdt_address memBadThenGood 0x1000) i) :=
  ⟨by decide, by decide, by decide,
    (C4_first_valid_entry_published memBadThenGood 0x1000 ⟨0, []⟩ (by decide)).1⟩

/-- C5, amended: with a valid root pointer, a valid "XSDT" directory and a
first entry passing `IsValid("FACP")` whose index `j` is below `Count()` and at
most `INT_MAX` and whose address is not 0, `Initialize` returns normally and
the published `fadt` is that entry: non-null, first 4 bytes "FACP", whole-table
checksum 0. -/
theorem C5_valid_chain_publishes (m : Mem) (rsdp : Nat) (s : State)
    (hr : (RSDP.IsValid m rsdp).1 = true)
    (hx : (DescriptionHeader.IsValid m (RSDP.xsdt_address m rsdp) sigXSDT).1 = true)
    (j : Nat) (hj : j < XSDT.Count m (RSDP.xsdt_address m rsdp))
    (hv : entryValid m (RSDP.xsdt_address m rsdp) j)
    (hfirst : ∀ k, k < j → ¬ entryValid m (RSDP.xsdt_address m rsdp) k)
    (hmax : j ≤ INT_MAX)
    (hnn : XSDT.get m (RSDP.xsdt_address m rsdp) j ≠ 0) :
    (Initialize m rsdp s).1 = .returned
    ∧ (Initialize m rsdp s).2.fadt ≠ 0
    ∧ (Initialize m rsdp s).2.fadt = XSDT.get m (RSDP.xsdt_address m rsdp) j
    ∧ bytesAt m (Initialize m rsdp s).2.fadt 4 = sigFACP
    ∧ SumBytes m (Initialize m rsdp s).2.fadt
        (DescriptionHeader.length m (Initialize m rsdp s).2.fadt) = 0 := by
  have hiff := (DescriptionHeader_IsValid_true_iff m
    (XSDT.get m (RSDP.xsdt_address m rsdp) j) sigFACP rfl (by simp [sigFACP])).mp hv
  have key : (Initialize m rsdp s).1 = .returned
      ∧ (Initialize m rsdp s).2.fadt = XSDT.get m (RSDP.xsdt_address m rsdp) j := by
    rcases Initialize_cases m rsdp s hr hx with
      ⟨i, _, _, h3, h4, h5⟩ | ⟨_, h2, _, _⟩ | ⟨_, h2, _⟩
    · have hij : i = j := by
        rcases Nat.lt_trichotomy i j with hlt | heq | hgt
        · exact absurd h3 (hfirst i hlt)
        · exact heq
        · exact absurd hv (h4 j hgt)
      subst hij
      rcases h5 with ⟨_, h6, h7⟩ | ⟨h6, _, _⟩
      · exact ⟨h6, h7⟩
      · exact absurd h6 hnn
    · exact absurd hv (h2 j hj)
    · exact absurd hv (h2 j hmax)
  refine ⟨key.1, ?_, key.2, ?_, ?_⟩
  · rw [key.2]; exact hnn
  · rw [key.2]; exact hiff.1
  · rw [key.2]; exact hiff.2

/-- C5, amended, on scenario 1: one good "FACP" entry at `0x3000`. -/
theorem C5_valid_chain_publishes_witness :
    (RSDP.IsValid memOneFacp 0x1000).1 = true
    ∧ (DescriptionHeader.IsValid memOneFacp (RSDP.xsdt_address memOneFacp 0x1000) sigXSDT).1 = true
    ∧ 0 < XSDT.Count memOneFacp (RSDP.xsdt_address memOneFacp 0x1000)
    ∧ entryValid memOneFacp (RSDP.xsdt_address memOneFacp 0x1000) 0
    ∧ XSDT.get memOneFacp (RSDP.xsdt_address memOneFacp 0x1000) 0 ≠ 0
    ∧ ((Initialize memOneFacp 0x1000 ⟨0, []⟩).1 = .returned
      ∧ (Initialize memOneFacp 0x1000 ⟨0, []⟩).2.fadt ≠ 0
      ∧ (Initialize memOneFacp 0x1000 ⟨0, []⟩).2.fadt
          = XSDT.get memOneFacp (RSDP.xsdt_address memOneFacp 0x1000) 0
      ∧ bytesAt memOneFacp (Initialize memOneFacp 0x1000 ⟨0, []⟩).2.fadt 4 = sigFACP
      ∧ SumBytes memOneFacp (Initialize memOneFacp 0x1000 ⟨0, []⟩).2.fadt
          (DescriptionHeader.length memOneFacp (Initialize memOneFacp 0x1000 ⟨0, []⟩).2.fadt)
          = 0) :=
  ⟨by decide, by decide, by decide, by decide, by decide,
    C5_valid_chain_publishes memOneFacp 0x1000 ⟨0, []⟩ (by decide) (by decide) 0 (by decide)
      (by decide) (fun k hk => absurd hk (Nat.not_lt_zero k)) (Nat.zero_le _) (by decide)⟩

/-- C5 as stated fails on two images.  In `memFacpAtZero` the root pointer and
the directory are valid and entry 0 passes `IsValid("FACP")`, but the entry
lies at address 0, so `fadt` stays null and the call halts with "FADT is not
found".  In `memFarEntry` the root pointer and the directory (length field 0,
`Count()` above `2 ^ 61`) are valid and the entry of index `2 ^ 31` passes
`IsValid("FACP")`, but the `int` counter overflows before reaching it. -/
theorem C5_counterexample :
    ((RSDP.IsValid memFacpAtZero 0x1000).1 = true
      ∧ (DescriptionHeader.IsValid memFacpAtZero (RSDP.xsdt_address memFacpAtZero 0x1000)
          sigXSDT).1 = true
      ∧ (∃ i, i < XSDT.Count memFacpAtZero (RSDP.xsdt_address memFacpAtZero 0x1000)
          ∧ entryValid memFacpAtZero (RSDP.xsdt_address memFacpAtZero 0x1000) i)
      ∧ (Initialize memFacpAtZero 0x1000 ⟨0, []⟩).1 ≠ .returned
      ∧ haltsWith (Initialize memFacpAtZero 0x1000 ⟨0, []⟩) "FADT is not found\n"
      ∧ (Initialize memFacpAtZero 0x1000 ⟨0, []⟩).2.fadt = 0)
    ∧ ((RSDP.IsValid memFarEntry 0x1000).1 = true
      ∧ (DescriptionHeader.IsValid memFarEntry (RSDP.xsdt_address memFarEntry 0x1000)
          sigXSDT).1 = true
      ∧ (∃ i, i < XSDT.Count memFarEntry (RSDP.xsdt_address memFarEntry 0x1000)
          ∧ entryValid memFarEntry (RSDP.xsdt_address memFarEntry 0x1000) i)
      ∧ (Initialize memFarEntry 0x1000 ⟨0, []⟩).1 ≠ .returned
      ∧ (Initialize memFarEntry 0x1000 ⟨0, []⟩).1 = .intOverflow) := by
  refine ⟨⟨by decide, by decide, ⟨0, by decide, by decide⟩, by decide, by decide, by decide⟩, ?_⟩
  have hr : (RSDP.IsValid memFarEntry 0x1000).1 = true := by decide
  have hx : (DescriptionHeader.IsValid memFarEntry (RSDP.xsdt_address memFarEntry 0x1000)
      sigXSDT).1 = true := by decide
  have hD : RSDP.xsdt_address memFarEntry 0x1000 = 0x2000 := by decide
  have hover : (Initialize memFarEntry 0x1000 ⟨0, []⟩).1 = .intOverflow := by
    rcases Initialize_cases memFarEntry 0x1000 ⟨0, []⟩ hr hx with
      ⟨j, _, h2, h3, _⟩ | ⟨h1, _⟩ | ⟨_, _, h3⟩
    · rw [hD] at h3
      exact absurd h3 (memFarEntry_invalid j h2)
    · rw [hD] at h1
      exact absurd h1 (by decide)
    · exact h3
  refine ⟨hr, hx, ⟨2147483648, by decide, by decide⟩, ?_, hover⟩
  rw [hover]
  decide

/-- C6, amended: with a valid root pointer and a valid "XSDT" directory whose
`header.length` is at least 36 and none of whose entries passing
`IsValid("FACP")` lies at address 0, `Initialize` halts with "FADT is not found"
if and only if no entry of index below `Count()` passes `IsValid("FACP")`; it
halts so when the length is 36 (the count is 0) and when the only entry has
the signature "APIC". -/
theorem C6_not_found_iff (m : Mem) (rsdp : Nat) (s : State)
    (hr : (RSDP.IsValid m rsdp).1 = true)
    (hx : (DescriptionHeader.IsValid m (RSDP.xsdt_address m rsdp) sigXSDT).1 = true)
    (hL : 36 ≤ DescriptionHeader.length m (RSDP.xsdt_address m rsdp))
    (hnn : ∀ i, i < XSDT.Count m (RSDP.xsdt_address m rsdp) →
      entryValid m (RSDP.xsdt_address m rsdp) i →
      XSDT.get m (RSDP.xsdt_address m rsdp) i ≠ 0) :
    (haltsWith (Initialize m rsdp s) "FADT is not found\n" ↔
      ∀ i, i < XSDT.Count m (RSDP.xsdt_address m rsdp) →
        ¬ entryValid m (RSDP.xsdt_address m rsdp) i)
    ∧ (DescriptionHeader.length m (RSDP.xsdt_address m rsdp) = 36 →
        XSDT.Count m (RSDP.xsdt_address m rsdp) = 0
          ∧ haltsWith (Initialize m rsdp s) "FADT is not found\n")
    ∧ (XSDT.Count m (RSDP.xsdt_address m rsdp) = 1 →
        bytesAt m (XSDT.get m (RSDP.xsdt_address m rsdp) 0) 4 = sigAPIC →
        haltsWith (Initialize m rsdp s) "FADT is not found\n") := by
  have hC := Count_le_of_length m (RSDP.xsdt_address m rsdp) hL
  have hiff : haltsWith (Initialize m rsdp s) "FADT is not found\n" ↔
      ∀ i, i < XSDT.Count m (RSDP.xsdt_address m rsdp) →
        ¬ entryValid m (RSDP.xsdt_address m rsdp) i := by
    constructor
    · intro h
      rcases Initialize_cases m rsdp s hr hx with
        ⟨j, h1, _, h3, _, ⟨_, h6, _⟩ | ⟨h6, _, _⟩⟩ | ⟨_, h2, _, _⟩ | ⟨h1, _, _⟩
      · exact absurd h6 (haltsWith_not_returned _ _ h)
      · exact absurd h6 (hnn j h1 h3)
      · exact h2
      · omega
    · intro hall
      rcases Initialize_cases m rsdp s hr hx with
        ⟨j, h1, _, h3, _⟩ | ⟨_, _, h3, _⟩ | ⟨h1, _, _⟩
      · exact absurd h3 (hall j h1)
      · exact h3
      · omega
  refine ⟨hiff, fun h36 => ?_, fun h1 hsig => ?_⟩
  · have h0 : XSDT.Count m (RSDP.xsdt_address m rsdp) = 0 := by
      simp only [XSDT.Count, h36, sizeofDescriptionHeader, sizeofU64]
      norm_num
    refine ⟨h0, hiff.mpr (fun i hi => ?_)⟩
    omega
  · refine hiff.mpr (fun i hi hv => ?_)
    have hi0 : i = 0 := by omega
    subst hi0
    have := (DescriptionHeader_IsValid_true_iff m _ sigFACP rfl (by simp [sigFACP])).mp hv
    rw [hsig] at this
    exact absurd this.1 (by decide)

/-- C6, amended, on scenario 6 (one "APIC" entry), scenario 5 (no entry) and
scenario 1 (a valid entry, no such halt). -/
theorem C6_not_found_iff_witness :
    ((RSDP.IsValid memApic 0x1000).1 = true
      ∧ 36 ≤ DescriptionHeader.length memApic (RSDP.xsdt_address memApic 0x1000)
      ∧ XSDT.Count memApic (RSDP.xsdt_address memApic 0x1000) = 1
      ∧ bytesAt memApic (XSDT.get memApic (RSDP.xsdt_address memApic 0x1000) 0) 4 = sigAPIC
      ∧ haltsWith (Initialize memApic 0x1000 ⟨0, []⟩) "FADT is not found\n")
    ∧ (DescriptionHeader.length memNoEntry (RSDP.xsdt_address memNoEntry 0x1000) = 36
      ∧ XSDT.Count memNoEntry (RSDP.xsdt_address memNoEntry 0x1000) = 0
      ∧ haltsWith (Initialize memNoEntry 0x1000 ⟨0, []⟩) "FADT is not found\n")
    ∧ (entryValid memOneFacp (RSDP.xsdt_address memOneFacp 0x1000) 0
      ∧ ¬ haltsWith (Initialize memOneFacp 0x1000 ⟨0, []⟩) "FADT is not found\n") := by
  have hA := C6_not_found_iff memApic 0x1000 ⟨0, []⟩ (by decide) (by decide) (by decide)
    (fun i hi hv => by
      have hi0 : i = 0 := by
        have : XSDT.Count memApic (RSDP.xsdt_address memApic 0x1000) = 1 := by decide
        omega
      subst hi0
      exact absurd hv (by decide))
  have hN := C6_not_found_iff memNoEntry 0x1000 ⟨0, []⟩ (by decide) (by decide) (by decide)
    (fun i hi _ => by
      have : XSDT.Count memNoEntry (RSDP.xsdt_address memNoEntry 0x1000) = 0 := by decide
      omega)
  have hO := C6_not_found_iff memOneFacp 0x1000 ⟨0, []⟩ (by decide) (by decide) (by decide)
    (fun i hi _ => by
      have hi0 : i = 0 := by
        have : XSDT.Count memOneFacp (RSDP.xsdt_address memOneFacp 0x1000) = 1 := by decide
        omega
      subst hi0
      decide)
  refine ⟨⟨by decide, by decide, by decide, by decide, hA.2.2 (by decide) (by decide)⟩,
    ⟨by decide, (hN.2.1 (by decide)).1, (hN.2.1 (by decide)).2⟩, by decide, fun h => ?_⟩
  exact hO.1.mp h 0 (by decide) (by decide)

/-- C6 as stated fails on two images.  In `memFacpAtZero` entry 0 passes
`IsValid("FACP")`, yet the call halts with "FADT is not found", because the
entry lies at address 0.  In `memLen0` the directory is valid with a length
field of 0, no entry below `Count()` passes `IsValid("FACP")`, yet the call does
not halt with "FADT is not found": the `int` counter overflows. -/
theorem C6_counterexample :
    ((RSDP.IsValid memFacpAtZero 0x1000).1 = true
      ∧ (DescriptionHeader.IsValid memFacpAtZero (RSDP.xsdt_address memFacpAtZero 0x1000)
          sigXSDT).1 = true
      ∧ haltsWith (Initialize memFacpAtZero 0x1000 ⟨0, []⟩) "FADT is not found\n"
      ∧ ¬ (∀ i, i < XSDT.Count memFacpAtZero (RSDP.xsdt_address memFacpAtZero 0x1000) →
            ¬ entryValid memFacpAtZero (RSDP.xsdt_address memFacpAtZero 0x1000) i))
    ∧ ((RSDP.IsValid memLen0 0x1000).1 = true
      ∧ (DescriptionHeader.IsValid memLen0 (RSDP.xsdt_address memLen0 0x1000) sigXSDT).1 = true
      ∧ (∀ i, i < XSDT.Count memLen0 (RSDP.xsdt_address memLen0 0x1000) →
            ¬ entryValid memLen0 (RSDP.xsdt_address memLen0 0x1000) i)
      ∧ ¬ haltsWith (Initialize memLen0 0x1000 ⟨0, []⟩) "FADT is not found\n"
      ∧ (Initialize memLen0 0x1000 ⟨0, []⟩).1 = .intOverflow) := by
  refine ⟨⟨by decide, by decide, by decide, fun h => h 0 (by decide) (by decide)⟩, ?_⟩
  have hr : (RSDP.IsValid memLen0 0x1000).1 = true := by decide
  have hx : (DescriptionHeader.IsValid memLen0 (RSDP.xsdt_address memLen0 0x1000)
      sigXSDT).1 = true := by decide
  have hD : RSDP.xsdt_address memLen0 0x1000 = 0x2000 := by decide
  have hover : (Initialize memLen0 0x1000 ⟨0, []⟩).1 = .intOverflow := by
    rcases Initialize_cases memLen0 0x1000 ⟨0, []⟩ hr hx with
      ⟨j, _, _, h3, _⟩ | ⟨h1, _⟩ | ⟨_, _, h3⟩
    · rw [hD] at h3
      exact absurd h3 (memLen0_invalid j)
    · rw [hD] at h1
      exact absurd h1 (by decide)
    · exact h3
  refine ⟨hr, hx, fun i _ => ?_, fun h => ?_, hover⟩
  · rw [hD]
    exact memLen0_invalid i
  · have := h.1
    rw [hover] at this
    cases this

/-- C7: when the root pointer fails `RSDP::IsValid`, `Initialize` halts with
"RSDP is not valid", logs nothing but the validator's diagnostic and that
error, leaves `fadt` as it was, and reads no byte outside the 36 bytes of the
root pointer (so not the directory); and adding 1 modulo 256 to the byte at
offset 8 of a valid root pointer makes `RSDP::IsValid` false, with this
outcome. -/
theorem C7_invalid_root_pointer_halts (m : Mem) (rsdp : Nat) (s : State) :
    ((RSDP.IsValid m rsdp).1 = false →
      haltsWith (Initialize m rsdp s) "RSDP is not valid\n"
      ∧ (Initialize m rsdp s).2.fadt = s.fadt
      ∧ (Initialize m rsdp s).2.log
          = s.log ++ (RSDP.IsValid m rsdp).2 ++ [⟨.kError, "RSDP is not valid\n", []⟩]
      ∧ ∀ m' : Mem, (∀ k, k < 36 → m' (rsdp + k) = m (rsdp + k)) →
          Initialize m' rsdp s = Initialize m rsdp s)
    ∧ ((RSDP.IsValid m rsdp).1 = true →
      (RSDP.IsValid (m.set (rsdp + 8) (m (rsdp + 8) + 1)) rsdp).1 = false
      ∧ haltsWith (Initialize (m.set (rsdp + 8) (m (rsdp + 8) + 1)) rsdp s) "RSDP is not valid\n"
      ∧ (Initialize (m.set (rsdp + 8) (m (rsdp + 8) + 1)) rsdp s).2.fadt = s.fadt) := by
  constructor
  · intro h
    rw [Initialize_rsdp_invalid m rsdp s h]
    refine ⟨⟨rfl, by simp⟩, rfl, rfl, fun m' hm => ?_⟩
    have e := RSDP_IsValid_congr m m' rsdp hm
    rw [Initialize_rsdp_invalid m' rsdp s (by rw [e]; exact h), e]
  · intro h
    have e := RSDP.IsValid_bump_checksum m rsdp h
    have hf : (RSDP.IsValid (m.set (rsdp + 8) (m (rsdp + 8) + 1)) rsdp).1 = false := by rw [e]
    rw [Initialize_rsdp_invalid _ rsdp s hf]
    exact ⟨hf, ⟨rfl, by simp⟩, rfl⟩

/-- C7 on scenario 2: the root pointer of scenario 1 with its checksum byte
off by one. -/
theorem C7_invalid_root_pointer_halts_witness :
    (RSDP.IsValid memOneFacp 0x1000).1 = true
    ∧ (RSDP.IsValid (memOneFacp.set (0x1000 + 8) (memOneFacp (0x1000 + 8) + 1)) 0x1000).1 = false
    ∧ haltsWith (Initialize (memOneFacp.set (0x1000 + 8) (memOneFacp (0x1000 + 8) + 1)) 0x1000
        ⟨7, []⟩) "RSDP is not valid\n"
    ∧ (Initialize (memOneFacp.set (0x1000 + 8) (memOneFacp (0x1000 + 8) + 1)) 0x1000
        ⟨7, []⟩).2.fadt = 7
    ∧ (Initialize (memOneFacp.set (0x1000 + 8) (memOneFacp (0x1000 + 8) + 1)) 0x1000
        ⟨7, []⟩).2.log
        = [⟨.kDebug, "sum of 20 bytes must be 0: %d\n", [.num 1]⟩,
           ⟨.kError, "RSDP is not valid\n", []⟩] := by
  have h := (C7_invalid_root_pointer_halts memOneFacp 0x1000 ⟨7, []⟩).2 (by decide)
  have h' := (C7_invalid_root_pointer_halts
    (memOneFacp.set (0x1000 + 8) (memOneFacp (0x1000 + 8) + 1)) 0x1000 ⟨7, []⟩).1 h.1
  exact ⟨by decide, h.1, h'.1, h'.2.1, by decide⟩

/-- C8: with a valid root pointer and a table at `xsdt_address` that fails
`IsValid("XSDT")`, `Initialize` halts with "XSDT is not valid", logs nothing
but that validator's diagnostic and that error (no entry is validated), leaves
`fadt` as it was, and reads no byte outside the root pointer and the directory
table (no entry is read); a table with the signature "XSDP" or with a nonzero
whole-table checksum fails `IsValid("XSDT")`. -/
theorem C8_invalid_directory_halts (m : Mem) (rsdp : Nat) (s : State)
    (hr : (RSDP.IsValid m rsdp).1 = true) :
    ((DescriptionHeader.IsValid m (RSDP.xsdt_address m rsdp) sigXSDT).1 = false →
      haltsWith (Initialize m rsdp s) "XSDT is not valid\n"
      ∧ (Initialize m rsdp s).2.fadt = s.fadt
      ∧ (Initialize m rsdp s).2.log
          = s.log ++ (DescriptionHeader.IsValid m (RSDP.xsdt_address m rsdp) sigXSDT).2
              ++ [⟨.kError, "XSDT is not valid\n", []⟩]
      ∧ ∀ m' : Mem, (∀ k, k < 36 → m' (rsdp + k) = m (rsdp + k)) →
          (∀ k, k < 8 → m' (RSDP.xsdt_address m rsdp + k) = m (RSDP.xsdt_address m rsdp + k)) →
          (∀ k, k < DescriptionHeader.length m (RSDP.xsdt_address m rsdp) →
            m' (RSDP.xsdt_address m rsdp + k) = m (RSDP.xsdt_address m rsdp + k)) →
          Initialize m' rsdp s = Initialize m rsdp s)
    ∧ (bytesAt m (RSDP.xsdt_address m rsdp) 4 = [88, 83, 68, 80] →
        (DescriptionHeader.IsValid m (RSDP.xsdt_address m rsdp) sigXSDT).1 = false)
    ∧ (SumBytes m (RSDP.xsdt_address m rsdp)
          (DescriptionHeader.length m (RSDP.xsdt_address m rsdp)) ≠ 0 →
        (DescriptionHeader.IsValid m (RSDP.xsdt_address m rsdp) sigXSDT).1 = false) := by
  have hiff := DescriptionHeader_IsValid_true_iff m (RSDP.xsdt_address m rsdp) sigXSDT rfl
    (by simp [sigXSDT])
  refine ⟨fun hx => ?_, fun hsig => ?_, fun hsum => ?_⟩
  · rw [Initialize_xsdt_invalid m rsdp s hr hx]
    have hnil := RSDP_IsValid_log_nil m rsdp hr
    refine ⟨⟨rfl, by simp⟩, rfl, by simp [hnil], fun m' h36 h8 hL => ?_⟩
    have e1 := RSDP_IsValid_congr m m' rsdp h36
    have e2 := RSDP_xsdt_address_congr m m' rsdp h36
    have e3 := DescriptionHeader_IsValid_congr m m' (RSDP.xsdt_address m rsdp) sigXSDT h8 hL
    rw [Initialize_xsdt_invalid m' rsdp s (by rw [e1]; exact hr) (by rw [e2, e3]; exact hx),
      e1, e2, e3]
  · by_contra hv
    have hv' := hiff.mp (by simpa using hv)
    rw [hsig] at hv'
    exact absurd hv'.1 (by decide)
  · by_contra hv
    have hv' := hiff.mp (by simpa using hv)
    exact hsum hv'.2

/-- C8 on scenario 3: the directory carries the signature "XSDP". -/
theorem C8_invalid_directory_halts_witness :
    (RSDP.IsValid memXsdp 0x1000).1 = true
    ∧ bytesAt memXsdp (RSDP.xsdt_address memXsdp 0x1000) 4 = [88, 83, 68, 80]
    ∧ (DescriptionHeader.IsValid memXsdp (RSDP.xsdt_address memXsdp 0x1000) sigXSDT).1 = false
    ∧ haltsWith (Initialize memXsdp 0x1000 ⟨7, []⟩) "XSDT is not valid\n"
    ∧ (Initialize memXsdp 0x1000 ⟨7, []⟩).2.fadt = 7
    ∧ (Initialize memXsdp 0x1000 ⟨7, []⟩).2.log
        = [⟨.kDebug, "invalid signature: %.4s\n", []⟩, ⟨.kError, "XSDT is not valid\n", []⟩] := by
  have h := C8_invalid_directory_halts memXsdp 0x1000 ⟨7, []⟩ (by decide)
  have hx := h.2.1 (by decide)
  have h' := h.1 hx
  exact ⟨by decide, by decide, hx, h'.1, h'.2.1, by decide⟩

/-! ## The checksum: algebraic claims -/

/-- The checksum of a byte list laid out in memory is the sum of the list,
modulo 256. -/
theorem SumBytes_ofRegions_single (B : List Byte) (data : Nat) :
    SumBytes (Mem.ofRegions [(data, B)]) data B.length = (B.map Fin.val).sum % 256 := by
  rw [SumBytes_eq, ← sum_range_getD]
  congr 1
  apply Finset.sum_congr rfl
  intro k hk
  exact readU8_ofRegions_single data B k (Finset.mem_range.mp hk)

/-- The checksum of a range is the sum, modulo 256, of the checksums of its two
parts. -/
theorem SumBytes_append (m : Mem) (p a b : Nat) :
    SumBytes m p (a + b) = (SumBytes m p a + SumBytes m (p + a) b) % 256 := by
  rw [SumBytes_eq, SumBytes_eq, SumBytes_eq, Finset.sum_range_add]
  have : ∀ k, p + (a + k) = p + a + k := fun k => by omega
  simp only [this]
  omega

/-- Replacing one byte of a range of checksum 0 by a different byte makes the
checksum nonzero. -/
theorem SumBytes_set_ne_zero (m : Mem) (p n k : Nat) (b : Byte) (hk : k < n)
    (hb : b ≠ m (p + k)) (h0 : SumBytes m p n = 0) :
    SumBytes (m.set (p + k) b) p n ≠ 0 := by
  intro h
  have e := SumBytes_set m p k n b hk
  rw [h, h0] at e
  simp only [readU8, Nat.zero_add] at e
  have h1 : (m (p + k)).val < 256 := (m (p + k)).isLt
  have h2 : b.val < 256 := b.isLt
  rw [Nat.mod_eq_of_lt h1, Nat.mod_eq_of_lt h2] at e
  exact hb (Fin.ext e.symm)

/-- The sum of the byte list of a range is the sum over its addresses. -/
theorem sum_bytesAt (m : Mem) (p : Nat) :
    ∀ n, ((bytesAt m p n).map Fin.val).sum = ∑ k in Finset.range n, readU8 m (p + k) := by
  intro n
  induction n with
  | zero => simp [bytesAt]
  | succ n ih =>
      have e : bytesAt m p (n + 1) = bytesAt m p n ++ [m (p + n)] := by
        simp [bytesAt, List.range_succ]
      rw [e, List.map_append, List.sum_append, ih, Finset.sum_range_succ]
      simp [readU8]

/-- C11: two byte ranges whose byte sequences are permutations of each other
(same multiset of bytes, hence same length) have the same `SumBytes`; so do
two byte lists that are permutations of each other, wherever they are laid out
in memory. -/
theorem C11_SumBytes_perm :
    (∀ (m m' : Mem) (p p' n n' : Nat), (bytesAt m p n).Perm (bytesAt m' p' n') →
        SumBytes m p n = SumBytes m' p' n')
    ∧ (∀ (B B' : List Byte) (data data' : Nat), B.Perm B' →
        SumBytes (Mem.ofRegions [(data, B)]) data B.length
          = SumBytes (Mem.ofRegions [(data', B')]) data' B'.length) := by
  constructor
  · intro m m' p p' n n' h
    rw [SumBytes_eq, SumBytes_eq, ← sum_bytesAt, ← sum_bytesAt, (h.map Fin.val).sum_eq]
  · intro B B' data data' h
    rw [SumBytes_ofRegions_single, SumBytes_ofRegions_single, (h.map Fin.val).sum_eq]

/-- C11 on the bytes 200, 100, 7 and a rearrangement of them: both sums are
51. -/
theorem C11_SumBytes_perm_witness :
    List.Perm ([200, 100, 7] : List Byte) [7, 200, 100]
    ∧ SumBytes (Mem.ofRegions [(16, ([200, 100, 7] : List Byte))]) 16 3 = 51
    ∧ SumBytes (Mem.ofRegions [(16, ([200, 100, 7] : List Byte))]) 16
          ([200, 100, 7] : List Byte).length
        = SumBytes (Mem.ofRegions [(32, ([7, 200, 100] : List Byte))]) 32
          ([7, 200, 100] : List Byte).length :=
  ⟨by decide, by decide, C11_SumBytes_perm.2 [200, 100, 7] [7, 200, 100] 16 32 (by decide)⟩

/-- C12: when the checksum of the `L` bytes at `p` is 0, replacing the byte at
any index `k < L` by any different byte value makes the checksum nonzero. -/
theorem C12_single_byte_change_detected (m : Mem) (p L k : Nat) (b : Byte)
    (h0 : SumBytes m p L = 0) (hk : k < L) (hb : b ≠ m (p + k)) :
    SumBytes (m.set (p + k) b) p L ≠ 0 :=
  SumBytes_set_ne_zero m p L k b hk hb h0

/-- C12 on the "FACP" table of scenario 1: its 36 bytes sum to 0; with the
byte at offset 20 changed from 0 to 5 they sum to 5. -/
theorem C12_single_byte_change_detected_witness :
    SumBytes memOneFacp 0x3000 36 = 0 ∧ (5 : Byte) ≠ memOneFacp (0x3000 + 20)
    ∧ SumBytes (memOneFacp.set (0x3000 + 20) 5) 0x3000 36 = 5
    ∧ SumBytes (memOneFacp.set (0x3000 + 20) 5) 0x3000 36 ≠ 0 :=
  ⟨by decide, by decide, by decide,
    C12_single_byte_change_detected memOneFacp 0x3000 36 20 5 (by decide) (by decide)
      (by decide)⟩

/-! ## The header validator and the directory count: further claims -/

/-- A table that passes the header validation, for any tag, has checksum 0
over its self-reported length. -/
theorem DescriptionHeader_IsValid_sum_zero (m : Mem) (p : Nat) (tag : List Byte)
    (h : (DescriptionHeader.IsValid m p tag).1 = true) :
    SumBytes m p (DescriptionHeader.length m p) = 0 := by
  unfold DescriptionHeader.IsValid at h
  split_ifs at h with h1 h2
  simpa using h2

/-- A table whose checksum over its self-reported length is nonzero fails the
header validation, for any tag. -/
theorem DescriptionHeader_IsValid_false_of_sum (m : Mem) (p : Nat) (tag : List Byte)
    (h : SumBytes m p (DescriptionHeader.length m p) ≠ 0) :
    (DescriptionHeader.IsValid m p tag).1 = false := by
  unfold DescriptionHeader.IsValid
  rw [if_pos h]
  split_ifs <;> rfl

/-- Replacing a byte outside offsets 4..7 leaves the length field. -/
theorem DescriptionHeader_length_set (m : Mem) (p k : Nat) (b : Byte) (hk : k < 4 ∨ 8 ≤ k) :
    DescriptionHeader.length (m.set (p + k) b) p = DescriptionHeader.length m p := by
  unfold DescriptionHeader.length readU32
  apply readLE_congr
  intro j hj
  simp only [Mem.set, DescriptionHeader.lengthOffset]
  rw [if_neg (by omega)]

/-- Zero bytes at the end of a range do not change its checksum. -/
theorem SumBytes_zero_tail (m : Mem) (p a n : Nat)
    (hz : ∀ k, a ≤ k → k < a + n → m (p + k) = 0) :
    SumBytes m p (a + n) = SumBytes m p a := by
  have h0 : SumBytes m (p + a) n = 0 := by
    rw [SumBytes_eq]
    have : (∑ k in Finset.range n, readU8 m (p + a + k)) = 0 := by
      apply Finset.sum_eq_zero
      intro k hk
      have hk' := Finset.mem_range.mp hk
      have := hz (a + k) (by omega) (by omega)
      simp only [readU8]
      rw [show p + a + k = p + (a + k) by omega, this]
      rfl
    rw [this]
  have hlt := SumBytes_lt m p a
  rw [SumBytes_append, h0]
  omega

/-- The image `memFacpTail`, with one byte of the table replaced, is zero from
offset 37 of the table on. -/
theorem memFacpTail_set_zero (j : Nat) (b : Byte) (hj : j < 37) (k : Nat) (hk : 37 ≤ k) :
    (memFacpTail.set (0x3000 + j) b) (0x3000 + k) = 0 := by
  simp only [Mem.set, memFacpTail, Mem.ofRegions, facpBytes, List.length_append,
    List.length_cons, List.length_nil]
  rw [if_neg (by omega), if_neg (by omega)]

/-- The image `memFacpTail` with one byte of the table set to 1 passes
`IsValid("FACP")` when the signature is intact, the length field reads at
least 37 and the first 37 bytes sum to 0. -/
theorem memFacpTail_set_valid (j n : Nat) (hj : j < 37)
    (hsig : bytesAt (memFacpTail.set (0x3000 + j) 1) 0x3000 4 = sigFACP)
    (hlen : DescriptionHeader.length (memFacpTail.set (0x3000 + j) 1) 0x3000 = 37 + n)
    (h37 : SumBytes (memFacpTail.set (0x3000 + j) 1) 0x3000 37 = 0) :
    (DescriptionHeader.IsValid (memFacpTail.set (0x3000 + j) 1) 0x3000 sigFACP).1 = true := by
  refine (DescriptionHeader_IsValid_true_iff _ 0x3000 sigFACP rfl (by simp [sigFACP])).mpr
    ⟨hsig, ?_⟩
  rw [hlen, SumBytes_zero_tail _ 0x3000 37 n (fun k hk _ => memFacpTail_set_zero j 1 hj k hk)]
  exact h37

/-- C13, amended: when `DescriptionHeader::IsValid(tag)` is true for a table of
self-reported length `L`, changing the single byte at any offset `k < L`
outside the length field (offsets 4..7) to a different value makes
`DescriptionHeader::IsValid(tag)` false. -/
theorem C13_byte_change_outside_length_field (m : Mem) (p : Nat) (tag : List Byte) (k : Nat)
    (b : Byte) (hv : (DescriptionHeader.IsValid m p tag).1 = true)
    (hk : k < DescriptionHeader.length m p) (hout : k < 4 ∨ 8 ≤ k) (hb : b ≠ m (p + k)) :
    (DescriptionHeader.IsValid (m.set (p + k) b) p tag).1 = false := by
  apply DescriptionHeader_IsValid_false_of_sum
  rw [DescriptionHeader_length_set m p k b hout]
  exact SumBytes_set_ne_zero m p _ k b hk hb (DescriptionHeader_IsValid_sum_zero m p tag hv)

/-- C13, amended, on the "FACP" table of scenario 1 with the byte at offset 20
changed from 0 to 5, and with the first signature byte changed to "X". -/
theorem C13_byte_change_outside_length_field_witness :
    (DescriptionHeader.IsValid memOneFacp 0x3000 sigFACP).1 = true
    ∧ 20 < DescriptionHeader.length memOneFacp 0x3000
    ∧ (5 : Byte) ≠ memOneFacp (0x3000 + 20)
    ∧ (DescriptionHeader.IsValid (memOneFacp.set (0x3000 + 20) 5) 0x3000 sigFACP).1 = false
    ∧ (DescriptionHeader.IsValid (memOneFacp.set (0x3000 + 0) 88) 0x3000 sigFACP).1 = false :=
  ⟨by decide, by decide, by decide,
    C13_byte_change_outside_length_field memOneFacp 0x3000 sigFACP 20 5 (by decide) (by decide)
      (Or.inr (by decide)) (by decide),
    C13_byte_change_outside_length_field memOneFacp 0x3000 sigFACP 0 88 (by decide) (by decide)
      (Or.inl (by decide)) (by decide)⟩

/-- C13 as stated fails at each offset of the length field.  The "FACP" table
of scenario 1 has length 36 and passes `IsValid("FACP")`; with its byte at
offset 4 changed from 36 to 0 the length field reads 0, the checksum runs over
no byte, and `IsValid("FACP")` is still true.  The table of `memFacpTail` has
length 36 and passes too; with its byte at offset 5, 6 or 7 changed from 0 to 1
the length field reads 292, 65572 or 16777252, the checksum takes in the byte
255 behind the table, and `IsValid("FACP")` is still true. -/
theorem C13_counterexample :
    ((DescriptionHeader.IsValid memOneFacp 0x3000 sigFACP).1 = true
      ∧ DescriptionHeader.length memOneFacp 0x3000 = 36
      ∧ memOneFacp (0x3000 + 4) = 36
      ∧ (0 : Byte) ≠ memOneFacp (0x3000 + 4)
      ∧ DescriptionHeader.length (memOneFacp.set (0x3000 + 4) 0) 0x3000 = 0
      ∧ (DescriptionHeader.IsValid (memOneFacp.set (0x3000 + 4) 0) 0x3000 sigFACP).1 = true)
    ∧ ((DescriptionHeader.IsValid memFacpTail 0x3000 sigFACP).1 = true
      ∧ DescriptionHeader.length memFacpTail 0x3000 = 36
      ∧ (1 : Byte) ≠ memFacpTail (0x3000 + 5)
      ∧ DescriptionHeader.length (memFacpTail.set (0x3000 + 5) 1) 0x3000 = 292
      ∧ (DescriptionHeader.IsValid (memFacpTail.set (0x3000 + 5) 1) 0x3000 sigFACP).1 = true
      ∧ (1 : Byte) ≠ memFacpTail (0x3000 + 6)
      ∧ DescriptionHeader.length (memFacpTail.set (0x3000 + 6) 1) 0x3000 = 65572
      ∧ (DescriptionHeader.IsValid (memFacpTail.set (0x3000 + 6) 1) 0x3000 sigFACP).1 = true
      ∧ (1 : Byte) ≠ memFacpTail (0x3000 + 7)
      ∧ DescriptionHeader.length (memFacpTail.set (0x3000 + 7) 1) 0x3000 = 16777252
      ∧ (DescriptionHeader.IsValid (memFacpTail.set (0x3000 + 7) 1) 0x3000 sigFACP).1
          = true) :=
  ⟨by decide,
    by decide, by decide, by decide, by decide,
    memFacpTail_set_valid 5 255 (by decide) (by decide) (by decide) (by decide),
    by decide, by decide,
    memFacpTail_set_valid 6 65535 (by decide) (by decide) (by decide) (by decide),
    by decide, by decide,
    memFacpTail_set_valid 7 16777215 (by decide) (by decide) (by decide) (by decide)⟩

/-- C16: for a directory whose `header.length` `L` is below 36, `XSDT::Count`
is the wrapped unsigned 64-bit difference divided by 8,
`((L + 2^64 - 36) mod 2^64) / 8`, which is `(2^64 - 36 + L) / 8`: not 0 and at
least `2^61 - 5`. -/
theorem C16_Count_wraps (m : Mem) (D : Nat) (h : DescriptionHeader.length m D < 36) :
    XSDT.Count m D = ((DescriptionHeader.length m D + 2 ^ 64 - 36) % 2 ^ 64) / 8
    ∧ XSDT.Count m D = (2 ^ 64 - 36 + DescriptionHeader.length m D) / 8
    ∧ 2 ^ 61 - 5 ≤ XSDT.Count m D
    ∧ XSDT.Count m D ≠ 0 := by
  have e64 : (2 : Nat) ^ 64 = 18446744073709551616 := by norm_num
  have e61 : (2 : Nat) ^ 61 = 2305843009213693952 := by norm_num
  have hmod : (DescriptionHeader.length m D + 2 ^ 64 - 36) % 2 ^ 64
      = 2 ^ 64 - 36 + DescriptionHeader.length m D := by
    rw [Nat.mod_eq_of_lt]
    · rw [e64]; omega
    · rw [e64]; omega
  have hc : XSDT.Count m D = (2 ^ 64 - 36 + DescriptionHeader.length m D) / 8 := by
    simp only [XSDT.Count, sizeofDescriptionHeader, sizeofU64, hmod]
  refine ⟨rfl, hc, ?_, ?_⟩
  · rw [hc, e64, e61]; omega
  · rw [hc, e64]; omega

/-- C16 on the directory of length 0. -/
theorem C16_Count_wraps_witness :
    DescriptionHeader.length memLen0 0x2000 < 36
    ∧ XSDT.Count memLen0 0x2000 = 2305843009213693947
    ∧ (2 : Nat) ^ 61 - 5 ≤ XSDT.Count memLen0 0x2000 :=
  ⟨by decide, by decide, (C16_Count_wraps memLen0 0x2000 (by decide)).2.2.1⟩

/-- On `memLen0` the scan of `Initialize` ends in the overflow of its counter. -/
theorem memLen0_Initialize_overflow (s : State) :
    (Initialize memLen0 0x1000 s).1 = .intOverflow := by
  have hr : (RSDP.IsValid memLen0 0x1000).1 = true := by decide
  have hx : (DescriptionHeader.IsValid memLen0 (RSDP.xsdt_address memLen0 0x1000)
      sigXSDT).1 = true := by decide
  have hD : RSDP.xsdt_address memLen0 0x1000 = 0x2000 := by decide
  rcases Initialize_cases memLen0 0x1000 s hr hx with
    ⟨j, _, _, h3, _⟩ | ⟨h1, _⟩ | ⟨_, _, h3⟩
  · rw [hD] at h3
    exact absurd h3 (memLen0_invalid j)
  · rw [hD] at h1
    exact absurd h1 (by decide)
  · exact h3

/-- C14, amended: a table whose `header.length` is below 36 is not rejected
for that: for a NUL-free tag of four characters `IsValid(tag)` is true on it
exactly when its first 4 bytes are the tag and its first `length` bytes sum to
0 modulo 256, which is so whenever the length is 0 and the signature matches;
`Initialize` halts with "XSDT is not valid", before its scan loop and so
before any `Count()`, exactly on a directory that fails `IsValid("XSDT")`. -/
theorem C14_short_table_validation (m : Mem) (p : Nat) (tag : List Byte)
    (hlen : tag.length = 4) (hnul : ∀ c ∈ tag, c ≠ 0)
    (hL : DescriptionHeader.length m p < 36) :
    ((DescriptionHeader.IsValid m p tag).1 = true ↔
        bytesAt m p 4 = tag ∧ SumBytes m p (DescriptionHeader.length m p) = 0)
    ∧ (DescriptionHeader.length m p = 0 → bytesAt m p 4 = tag →
        (DescriptionHeader.IsValid m p tag).1 = true)
    ∧ (∀ (rsdp : Nat) (s : State), (RSDP.IsValid m rsdp).1 = true →
        RSDP.xsdt_address m rsdp = p →
        (haltsWith (Initialize m rsdp s) "XSDT is not valid\n" ↔
          (DescriptionHeader.IsValid m p sigXSDT).1 = false)) := by
  have hiff := DescriptionHeader_IsValid_true_iff m p tag hlen hnul
  refine ⟨hiff, fun h0 hsig => ?_, fun rsdp s hr hp => ?_⟩
  · refine hiff.mpr ⟨hsig, ?_⟩
    rw [h0, SumBytes_eq]
    simp
  · subst hp
    constructor
    · intro hh
      by_contra hx
      have hx' : (DescriptionHeader.IsValid m (RSDP.xsdt_address m rsdp) sigXSDT).1 = true := by
        simpa using hx
      rcases Initialize_cases m rsdp s hr hx' with
        ⟨_, _, _, _, _, ⟨_, h6, _⟩ | ⟨_, h6, _⟩⟩ | ⟨_, _, h3, _⟩ | ⟨_, _, h3⟩
      · exact absurd h6 (haltsWith_not_returned _ _ hh)
      · have := hh.2
        rw [h6.2] at this
        exact absurd this (by decide)
      · have := hh.2
        rw [h3.2] at this
        exact absurd this (by decide)
      · have := hh.1
        rw [h3] at this
        cases this
    · intro hx
      rw [Initialize_xsdt_invalid m rsdp s hr hx]
      exact ⟨rfl, by simp⟩

/-- C14, amended, on the directory of length 0, which passes
`IsValid("XSDT")`, and on the "XSDP" directory of scenario 3, on which
`Initialize` halts with "XSDT is not valid". -/
theorem C14_short_table_validation_witness :
    DescriptionHeader.length memLen0 0x2000 < 36
    ∧ (DescriptionHeader.IsValid memLen0 0x2000 sigXSDT).1 = true
    ∧ ((DescriptionHeader.IsValid memLen0 0x2000 sigXSDT).1 = true ↔
        bytesAt memLen0 0x2000 4 = sigXSDT
          ∧ SumBytes memLen0 0x2000 (DescriptionHeader.length memLen0 0x2000) = 0)
    ∧ ¬ haltsWith (Initialize memLen0 0x1000 ⟨0, []⟩) "XSDT is not valid\n" := by
  have h := C14_short_table_validation memLen0 0x2000 sigXSDT rfl (by simp [sigXSDT])
    (by decide)
  refine ⟨by decide, by decide, h.1, fun hh => ?_⟩
  have := (h.2.2 0x1000 ⟨0, []⟩ (by decide) (by decide)).mp hh
  exact absurd this (by decide)

/-- C14 as stated fails on the directory of `memLen0`: its length field is 0,
below 36, yet `IsValid("XSDT")` is true on it (the checksum runs over no
byte); `Initialize` goes on to its scan loop with `Count()` wrapped to
`2305843009213693947`, and ends in the overflow of its counter. -/
theorem C14_counterexample :
    DescriptionHeader.length memLen0 0x2000 = 0
    ∧ (DescriptionHeader.IsValid memLen0 0x2000 sigXSDT).1 = true
    ∧ (RSDP.IsValid memLen0 0x1000).1 = true
    ∧ RSDP.xsdt_address memLen0 0x1000 = 0x2000
    ∧ XSDT.Count memLen0 0x2000 = 2305843009213693947
    ∧ (Initialize memLen0 0x1000 ⟨0, []⟩).1 = .intOverflow :=
  ⟨by decide, by decide, by decide, by decide, by decide, memLen0_Initialize_overflow _⟩

/-- C15: on a root pointer with the signature "RSD PTR " and revision 0,
`RSDP::IsValid` passes the signature check, fails the revision check, and logs
the one diagnostic "invalid signature: %.8s" with the signature: the format
string and level of the diagnostic of a signature failure, here shown on a
root pointer whose first signature byte is "X". -/
theorem C15_revision_failure_logs_signature_message :
    bytesAt memRev0 0x1000 8 = sigRSDPTR
    ∧ RSDP.revision memRev0 0x1000 = 0
    ∧ RSDP.IsValid memRev0 0x1000
        = (false, [⟨.kDebug, "invalid signature: %.8s\n", [.chars sigRSDPTR]⟩])
    ∧ bytesAt memBadSig 0x1000 8 ≠ sigRSDPTR
    ∧ RSDP.IsValid memBadSig 0x1000
        = (false, [⟨.kDebug, "invalid signature: %.8s\n",
            [.chars [88, 83, 68, 32, 80, 84, 82, 32]]⟩]) := by
  decide

/-- The diagnostics of `RSDP::IsValid`: the checks run in the order signature,
revision, 20-byte sum, 36-byte sum, the first failing one logs one message and
ends the call; a revision failure logs the message of the signature check. -/
theorem RSDP_IsValid_diagnostics (m : Mem) (p : Nat) :
    (bytesAt m p 8 ≠ sigRSDPTR →
      RSDP.IsValid m p
        = (false, [⟨.kDebug, "invalid signature: %.8s\n", [.chars (bytesAt m p 8)]⟩]))
    ∧ (bytesAt m p 8 = sigRSDPTR → RSDP.revision m p ≠ 2 →
      RSDP.IsValid m p
        = (false, [⟨.kDebug, "invalid signature: %.8s\n", [.chars sigRSDPTR]⟩]))
    ∧ (bytesAt m p 8 = sigRSDPTR → RSDP.revision m p = 2 → SumBytes m p 20 ≠ 0 →
      RSDP.IsValid m p
        = (false, [⟨.kDebug, "sum of 20 bytes must be 0: %d\n", [.num (SumBytes m p 20)]⟩]))
    ∧ (bytesAt m p 8 = sigRSDPTR → RSDP.revision m p = 2 → SumBytes m p 20 = 0 →
      SumBytes m p 36 ≠ 0 →
      RSDP.IsValid m p
        = (false, [⟨.kDebug, "sum of 36 bytes must be 0: %d\n", [.num (SumBytes m p 36)]⟩])) := by
  have hs := strncmp_lit_iff m p sigRSDPTR 8 rfl (by simp [sigRSDPTR])
  refine ⟨fun h => ?_, fun h1 h2 => ?_, fun h1 h2 h3 => ?_, fun h1 h2 h3 h4 => ?_⟩
  · have : strncmp (fun i => readU8 m (p + i)) (cstr sigRSDPTR) 8 0 ≠ 0 := fun e => h (hs.mp e)
    simp [RSDP.IsValid, this]
  · simp [RSDP.IsValid, hs.mpr h1, h2, h1]
  · simp [RSDP.IsValid, hs.mpr h1, h2, h3]
  · simp [RSDP.IsValid, hs.mpr h1, h2, h3, h4]

/-! ## Additivity and the reset of the published pointer -/

/-- How the scan loop ends, and the `fadt` it leaves, depend on the starting
state through `fadt` only. -/
theorem Initialize.loop_state_indep (m : Mem) (D : Nat) :
    ∀ (room i : Nat) (s s' : State), s.fadt = s'.fadt →
      (Initialize.loop m D room i s).1 = (Initialize.loop m D room i s').1
        ∧ (Initialize.loop m D room i s).2.fadt = (Initialize.loop m D room i s').2.fadt := by
  intro room
  induction room with
  | zero =>
      intro i s s' hf
      by_cases hc : i < XSDT.Count m D
      · by_cases hv : entryValid m D i
        · rw [Initialize.loop_found m D 0 i s hc hv, Initialize.loop_found m D 0 i s' hc hv]
          exact ⟨rfl, rfl⟩
        · rw [Initialize.loop_overflow m D i s hc hv, Initialize.loop_overflow m D i s' hc hv]
          exact ⟨rfl, hf⟩
      · rw [Initialize.loop_stop m D 0 i s hc, Initialize.loop_stop m D 0 i s' hc]
        exact ⟨rfl, hf⟩
  | succ room ih =>
      intro i s s' hf
      by_cases hc : i < XSDT.Count m D
      · by_cases hv : entryValid m D i
        · rw [Initialize.loop_found m D (room + 1) i s hc hv,
            Initialize.loop_found m D (room + 1) i s' hc hv]
          exact ⟨rfl, rfl⟩
        · rw [Initialize.loop_next m D room i s hc hv, Initialize.loop_next m D room i s' hc hv]
          exact ih (i + 1) _ _ hf
      · rw [Initialize.loop_stop m D (room + 1) i s hc,
          Initialize.loop_stop m D (room + 1) i s' hc]
        exact ⟨rfl, hf⟩

/-- With a valid root pointer and a valid directory, the outcome and the final
`fadt` of `Initialize` are those of the scan loop started with `fadt` null. -/
theorem Initialize_eq_of_loop (m : Mem) (rsdp : Nat) (s : State)
    (hr : (RSDP.IsValid m rsdp).1 = true)
    (hx : (DescriptionHeader.IsValid m (RSDP.xsdt_address m rsdp) sigXSDT).1 = true) :
    (Initialize m rsdp s).2.fadt
        = (Initialize.loop m (RSDP.xsdt_address m rsdp) INT_MAX 0 ⟨0, s.log⟩).2.fadt
    ∧ (Initialize m rsdp s).1
        = (match (Initialize.loop m (RSDP.xsdt_address m rsdp) INT_MAX 0 ⟨0, s.log⟩).1 with
          | .intOverflow => Outcome.intOverflow
          | .done =>
              if (Initialize.loop m (RSDP.xsdt_address m rsdp) INT_MAX 0 ⟨0, s.log⟩).2.fadt = 0
              then Outcome.exited 1 else Outcome.returned) := by
  unfold Initialize
  simp only [hr, hx, RSDP_IsValid_log_nil m rsdp hr,
    DescriptionHeader_IsValid_log_nil m _ sigXSDT hx, List.append_nil, Bool.not_true,
    Bool.false_eq_true, if_false]
  rcases Initialize.loop m (RSDP.xsdt_address m rsdp) INT_MAX 0 ⟨0, s.log⟩ with ⟨e', s'⟩
  cases e' with
  | intOverflow => simp
  | done =>
      by_cases hf : s'.fadt = 0
      · simp [hf]
      · simp [hf]

/-- With a valid root pointer and a valid directory, the outcome and the final
`fadt` of `Initialize` do not depend on the state it was started in. -/
theorem Initialize_state_indep (m : Mem) (rsdp : Nat) (s s' : State)
    (hr : (RSDP.IsValid m rsdp).1 = true)
    (hx : (DescriptionHeader.IsValid m (RSDP.xsdt_address m rsdp) sigXSDT).1 = true) :
    (Initialize m rsdp s').1 = (Initialize m rsdp s).1
      ∧ (Initialize m rsdp s').2.fadt = (Initialize m rsdp s).2.fadt := by
  obtain ⟨h1, h2⟩ := Initialize_eq_of_loop m rsdp s hr hx
  obtain ⟨h1', h2'⟩ := Initialize_eq_of_loop m rsdp s' hr hx
  obtain ⟨e1, e2⟩ := Initialize.loop_state_indep m (RSDP.xsdt_address m rsdp) INT_MAX 0
    ⟨0, s'.log⟩ ⟨0, s.log⟩ rfl
  rw [h1, h2, h1', h2', e1, e2]
  exact ⟨rfl, rfl⟩

/-- C17: `SumBytes` is additive over concatenation: the checksum of a range is
the sum modulo 256 of the checksums of its two parts, for a memory range and
for two byte lists laid out in memory; hence in every root pointer accepted by
`RSDP::IsValid` the 16 bytes at offsets 20..35 sum to 0 modulo 256. -/
theorem C17_SumBytes_additive :
    (∀ (m : Mem) (p a b : Nat),
        SumBytes m p (a + b) = (SumBytes m p a + SumBytes m (p + a) b) % 256)
    ∧ (∀ (A B : List Byte) (data : Nat),
        SumBytes (Mem.ofRegions [(data, A ++ B)]) data (A ++ B).length
          = (SumBytes (Mem.ofRegions [(data, A)]) data A.length
              + SumBytes (Mem.ofRegions [(data, B)]) data B.length) % 256)
    ∧ (∀ (m : Mem) (p : Nat), (RSDP.IsValid m p).1 = true →
        SumBytes m (p + 20) 16 = 0
          ∧ (∑ k in Finset.range 16, readU8 m (p + 20 + k)) % 256 = 0) := by
  refine ⟨SumBytes_append, fun A B data => ?_, fun m p h => ?_⟩
  · rw [SumBytes_ofRegions_single, SumBytes_ofRegions_single, SumBytes_ofRegions_single,
      List.map_append, List.sum_append]
    omega
  · obtain ⟨_, _, h20, h36⟩ := (RSDP_IsValid_true_iff m p).mp h
    have e := SumBytes_append m p 20 16
    have hlt := SumBytes_lt m (p + 20) 16
    rw [show 20 + 16 = 36 by rfl, h36, h20] at e
    have h16 : SumBytes m (p + 20) 16 = 0 := by omega
    refine ⟨h16, ?_⟩
    rw [← SumBytes_eq]
    exact h16

/-- C17 on the root pointer of scenario 1, and on the byte lists 200, 100 and
7, 250. -/
theorem C17_SumBytes_additive_witness :
    (RSDP.IsValid memOneFacp 0x1000).1 = true
    ∧ SumBytes memOneFacp (0x1000 + 20) 16 = 0
    ∧ SumBytes (Mem.ofRegions [(16, ([200, 100] ++ [7, 250] : List Byte))]) 16 4 = 45
    ∧ SumBytes (Mem.ofRegions [(16, ([200, 100] : List Byte))]) 16 2 = 44
    ∧ SumBytes (Mem.ofRegions [(16, ([7, 250] : List Byte))]) 16 2 = 1 :=
  ⟨by decide, (C17_SumBytes_additive.2.2 memOneFacp 0x1000 (by decide)).1, by decide, by decide,
    by decide⟩

/-- C18: with a valid root pointer and a valid directory, `Initialize` assigns
`nullptr` to `fadt` before it scans, so its outcome and the final `fadt` do not
depend on the state it was started in, and `fadt` is null on the "FADT is not
found" halt; a later call on another memory image therefore publishes what
that image holds, whatever was published before.  The value of `fadt` is kept
as it was only when the root pointer or the directory is not valid. -/
theorem C18_fadt_reset_before_scan (m : Mem) (rsdp : Nat) (s : State) :
    ((RSDP.IsValid m rsdp).1 = true →
      (DescriptionHeader.IsValid m (RSDP.xsdt_address m rsdp) sigXSDT).1 = true →
        (∀ s' : State, (Initialize m rsdp s').1 = (Initialize m rsdp s).1
            ∧ (Initialize m rsdp s').2.fadt = (Initialize m rsdp s).2.fadt)
        ∧ (haltsWith (Initialize m rsdp s) "FADT is not found\n" →
            (Initialize m rsdp s).2.fadt = 0)
        ∧ (∀ (m0 : Mem) (s0 : State),
            (Initialize m rsdp (Initialize m0 rsdp s0).2).2.fadt = (Initialize m rsdp s).2.fadt))
    ∧ ((RSDP.IsValid m rsdp).1 = false → (Initialize m rsdp s).2.fadt = s.fadt)
    ∧ ((RSDP.IsValid m rsdp).1 = true →
        (DescriptionHeader.IsValid m (RSDP.xsdt_address m rsdp) sigXSDT).1 = false →
        (Initialize m rsdp s).2.fadt = s.fadt) := by
  refine ⟨fun hr hx => ⟨fun s' => Initialize_state_indep m rsdp s s' hr hx, fun hh => ?_,
    fun m0 s0 => (Initialize_state_indep m rsdp s _ hr hx).2⟩, fun hr => ?_, fun hr hx => ?_⟩
  · rcases Initialize_cases m rsdp s hr hx with
      ⟨_, _, _, _, _, ⟨_, h6, _⟩ | ⟨_, _, h7⟩⟩ | ⟨_, _, _, h4⟩ | ⟨_, _, h3⟩
    · exact absurd h6 (haltsWith_not_returned _ _ hh)
    · exact h7
    · exact h4
    · have := hh.1
      rw [h3] at this
      cases this
  · rw [Initialize_rsdp_invalid m rsdp s hr]
  · rw [Initialize_xsdt_invalid m rsdp s hr hx]

/-- C18 on three calls: scenario 1 publishes `0x3000`; a second call on the
changed directory of scenario 4 replaces it by `0x3100`; a call on the empty
directory of scenario 5, started with `fadt = 0x3000`, halts with `fadt` null;
on the "XSDP" directory of scenario 3 the value `0x3000` is kept. -/
theorem C18_fadt_reset_before_scan_witness :
    (Initialize memOneFacp 0x1000 ⟨0, []⟩).2.fadt = 0x3000
    ∧ (Initialize memBadThenGood 0x1000 (Initialize memOneFacp 0x1000 ⟨0, []⟩).2).2.fadt = 0x3100
    ∧ (Initialize memBadThenGood 0x1000 (Initialize memOneFacp 0x1000 ⟨0, []⟩).2).2.fadt
        = (Initialize memBadThenGood 0x1000 ⟨0, []⟩).2.fadt
    ∧ haltsWith (Initialize memNoEntry 0x1000 ⟨0x3000, []⟩) "FADT is not found\n"
    ∧ (Initialize memNoEntry 0x1000 ⟨0x3000, []⟩).2.fadt = 0
    ∧ (Initialize memXsdp 0x1000 ⟨0x3000, []⟩).2.fadt = 0x3000 := by
  have h2 := (C18_fadt_reset_before_scan memBadThenGood 0x1000 ⟨0, []⟩).1 (by decide) (by decide)
  have h5 := (C18_fadt_reset_before_scan memNoEntry 0x1000 ⟨0x3000, []⟩).1 (by decide)
    (by decide)
  have hX := (C18_fadt_reset_before_scan memXsdp 0x1000 ⟨0x3000, []⟩).2.2 (by decide)
    (by decide)
  exact ⟨by decide, by decide, h2.2.2 memOneFacp ⟨0, []⟩, by decide, h5.2.1 (by decide), hX⟩

end acpi
